import Mathlib

/-!
Verification of the multi-stage content analysis pipeline of the
Relevant backend (services/ai-analysis and related route handlers).

The JavaScript source is shallowly embedded: every class method that the
claims touch becomes a Lean function with the same name, numbers are
rationals (`ℚ`), JavaScript `x || d` on numbers/strings is modelled by
explicit truthiness helpers, optional/absent fields are `Option`s, and
the external HTTP calls are oracle parameters.  All definitions are
executable; rational constants are written with `mkRat` so that concrete
runs reduce inside the kernel.
-/

/-! ## Executable rational arithmetic

Batteries marks `Rat.add`/`Rat.mul` `@[irreducible]`, so the kernel cannot
evaluate them.  `mkRat` does reduce, hence the model uses the following
equivalent operations, with bridge lemmas to `+`, `*`, `/` for proofs. -/

def qadd (a b : ℚ) : ℚ := mkRat (a.num * b.den + b.num * a.den) (a.den * b.den)

def qmul (a b : ℚ) : ℚ := mkRat (a.num * b.num) (a.den * b.den)

def qdiv (a b : ℚ) : ℚ :=
  if b.num < 0 then mkRat (-(a.num * b.den)) (a.den * b.num.natAbs)
  else mkRat (a.num * b.den) (a.den * b.num.natAbs)

/-- JavaScript `Math.min`. -/
def jsMin (a b : ℚ) : ℚ := if a ≤ b then a else b

/-- JavaScript `Math.max`. -/
def jsMax (a b : ℚ) : ℚ := if a ≤ b then b else a

/-! ## JavaScript value helpers -/

/-- JavaScript `x || d` for an optional numeric field: `undefined`/`null`
and `0` are falsy and select the default. -/
def jsOrQ (x : Option ℚ) (d : ℚ) : ℚ :=
  match x with
  | some v => if v = 0 then d else v
  | none => d

/-- JavaScript `x || d` for an optional string field: `undefined` and the
empty string are falsy. -/
def jsOrStr (x : Option String) (d : String) : String :=
  match x with
  | some s => if s = "" then d else s
  | none => d

/-- Source `s.toLowerCase()` as a character list (ASCII behaviour). -/
def lowerChars (s : String) : List Char := s.toList.map Char.toLower

/-- Source `hay.includes(need)` on character lists (JavaScript substring test). -/
def hasSub (need : List Char) : List Char → Bool
  | [] => need.isEmpty
  | c :: t => need.isPrefixOf (c :: t) || hasSub need t

/-! ## Durations (BaseFilter.parseDuration)

A content item's `duration` is either absent, a number, or a string; only
strings are run through the `PT(\d+H)?(\d+M)?(\d+S)?` pattern. -/

inductive JsDuration where
  | missing
  | num (n : ℚ)
  | str (s : String)
  deriving Repr, DecidableEq

/-- JavaScript truthiness of the `duration` field. -/
def JsDuration.truthy : JsDuration → Bool
  | .missing => false
  | .num n => !(n == 0)
  | .str s => !(s == "")

/-- Numeric value of a digit run (the regex groups are `parseInt`ed). -/
def digitsVal (ds : List Char) : Nat := ds.foldl (fun a c => a * 10 + (c.toNat - 48)) 0

/-- Match one optional `(\d+)U` group of the duration pattern: a maximal
digit run immediately followed by the unit letter; otherwise the group is
skipped and the position is unchanged. -/
def takeUnit (u : Char) (cs : List Char) : Nat × List Char :=
  let ds := cs.takeWhile Char.isDigit
  let rest := cs.dropWhile Char.isDigit
  match rest with
  | c :: rest2 => if c = u ∧ ds ≠ [] then (digitsVal ds, rest2) else (0, cs)
  | [] => (0, cs)

/-- Suffix following the first occurrence of the literal `PT`, if any
(the regex is unanchored, so it matches at the leftmost `PT`). -/
def findPT : List Char → Option (List Char)
  | 'P' :: 'T' :: rest => some rest
  | _ :: rest => findPT rest
  | [] => none

/-- Source `BaseFilter.parseDuration`: non-strings and strings without `PT`
parse to `0` seconds. -/
def parseDuration : JsDuration → Nat
  | .str s =>
    match findPT s.toList with
    | some rest =>
      let hr := takeUnit 'H' rest
      let mr := takeUnit 'M' hr.2
      let sr := takeUnit 'S' mr.2
      hr.1 * 3600 + mr.1 * 60 + sr.1
    | none => 0
  | _ => 0

/-! ## Content items and analysis payloads -/

/-- A highlight as stored on a content item after deep analysis. -/
structure Highlight where
  text : String := ""
  relevance : ℚ := 0
  reason : String := ""
  deriving Repr, DecidableEq

/-- Parsed response payload of the full-analysis request
(`FullAIAnalyzer`), before `validateAnalysis` fills defaults. -/
structure FullResp where
  relevanceScore : Option ℚ := none
  summary : Option String := none
  categories : Option (List String) := none
  highlights : Option (List Highlight) := none
  keyPoints : Option (List String) := none
  sentiment : Option String := none
  deriving Repr, DecidableEq

/-- A content item flowing through the pipeline.  Fields that a stage may
append are `Option`s (or default-empty lists); `none` models a field the
JavaScript object does not have. -/
structure ContentItem where
  id : Nat := 0
  title : String := ""
  description : Option String := none
  channelTitle : String := ""
  viewCount : Option ℚ := none
  duration : JsDuration := .missing
  keywordRelevance : Option ℚ := none
  qualityScore : Option ℚ := none
  interestAlignment : Option ℚ := none
  combinedScore : Option ℚ := none
  quickAiScore : Option ℚ := none
  finalRelevanceScore : Option ℚ := none
  categories : List String := []
  highlights : List Highlight := []
  summary : Option String := none
  keyPoints : List String := []
  tags : List String := []
  aiAnalyzed : Bool := false
  aiProcessed : Bool := false
  fallback : Bool := false
  error : Option String := none
  processingStage : Option String := none
  aiModel : Option String := none
  fullAnalysis : Option FullResp := none
  deriving Repr, DecidableEq

/-- The text both keyword scoring and quality scoring operate on:
`(content.title + ' ' + content.description).toLowerCase()`.  When the
description is absent, JavaScript string concatenation inserts the word
`undefined`. -/
def textOf (content : ContentItem) : List Char :=
  lowerChars (content.title ++ " " ++ (match content.description with
    | some s => s
    | none => "undefined"))

/-! ## Interest model -/

structure SubcatData where
  priority : Option ℚ := none
  keywords : List String := []
  deriving Repr, DecidableEq

structure InterestData where
  priority : Option ℚ := none
  keywords : Option (List String) := none
  subcategories : Option (List (String × SubcatData)) := none
  deriving Repr, DecidableEq

/-- Source `userInterests` as passed to the pipeline: a legacy flat array of
names or a hierarchical object (entries in insertion order). -/
inductive UserInterests where
  | array (names : List String)
  | object (entries : List (String × InterestData))
  deriving Repr, DecidableEq

/-- Source `Array.isArray(userInterests) ? userInterests : Object.keys(userInterests || {})`. -/
def interestNames : UserInterests → List String
  | .array names => names
  | .object entries => entries.map Prod.fst

/-! ## Configuration (AnalysisConfig) -/

structure Thresholds where
  minTitleRelevance : ℚ := mkRat 3 10
  minDescriptionLength : Nat := 50
  maxDescriptionLength : Nat := 5000
  keywordMatchThreshold : Nat := 2
  quickScoreThreshold : ℚ := mkRat 3 5
  fullAnalysisThreshold : ℚ := mkRat 3 4
  minDurationSeconds : Nat := 60
  maxDurationSeconds : Nat := 28800
  deriving Repr, DecidableEq

def defaultThresholds : Thresholds := {}

structure ProcessingConfig where
  batchSize : Nat := 3
  maxFullAnalysis : Nat := 10
  maxTokensQuick : Nat := 200
  maxTokensFull : Nat := 1000
  deriving Repr, DecidableEq

def defaultProcessing : ProcessingConfig := {}

/-- Source `AnalysisConfig.scoring`. -/
structure ScoringConfig where
  qualityWeight : ℚ := mkRat 2 5
  relevanceWeight : ℚ := mkRat 2 5
  alignmentWeight : ℚ := mkRat 1 5
  qualityIndicatorScore : ℚ := mkRat 1 10
  domainMatchScore : ℚ := mkRat 1 10
  viewCountBonusHigh : ℚ := mkRat 1 5
  viewCountBonusMed : ℚ := mkRat 1 10
  viewCountThresholdHigh : ℚ := 100000
  viewCountThresholdMed : ℚ := 10000
  durationBonusScore : ℚ := mkRat 1 10
  durationMinOptimal : Nat := 300
  durationMaxOptimal : Nat := 3600
  deriving Repr, DecidableEq

def defaultScoring : ScoringConfig := {}

/-- The static keyword/heuristic tables (`KeywordsConfig`); the concrete
entry lists are configuration data, so definitions are parameterised by
them. -/
structure KeywordTables where
  irrelevantKeywords : List String := []
  qualityIndicators : List String := []
  professionalDomains : List String := []
  deriving Repr, DecidableEq

/-! ## Generic list helpers (stable sort, batching) -/

/-- Insert into a descending-sorted list, after earlier elements with an
equal key (stability, matching JavaScript `Array.prototype.sort`). -/
def insertDesc (key : α → ℚ) (x : α) : List α → List α
  | [] => [x]
  | y :: t => if key y < key x then x :: y :: t else y :: insertDesc key x t

/-- Stable sort by descending key, modelling `.sort((a, b) => key(b) - key(a))`. -/
def sortDescBy (key : α → ℚ) (l : List α) : List α :=
  l.foldl (fun acc x => insertDesc key x acc) []

/-- Split into consecutive chunks of `n` items (the
`for (i = 0; i < length; i += batchSize)` loop); fuel-structured so the
kernel can evaluate it. -/
def chunkListAux (n : Nat) : Nat → List α → List (List α)
  | 0, _ => []
  | _, [] => []
  | Nat.succ fuel, x :: xs => (x :: xs.take (n - 1)) :: chunkListAux n fuel (xs.drop (n - 1))

def chunkList (n : Nat) (l : List α) : List (List α) := chunkListAux n l.length l

/-! ## BasicContentFilter -/

namespace BasicContentFilter

/-- Source `BaseFilter.validateContent`: the item must be an object with truthy
`title` and truthy `description`. -/
def validateContent (content : ContentItem) : Bool :=
  !(content.title == "") && !((content.description.getD "") == "")

/-- Source `hasIrrelevantKeywords`. -/
def hasIrrelevantKeywords (t : KeywordTables) (text : List Char) : Bool :=
  t.irrelevantKeywords.any (fun k => hasSub (lowerChars k) text)

/-- Source `isValidDuration`: the parsed seconds must lie within the configured
range. -/
def isValidDuration (cfg : Thresholds) (duration : JsDuration) : Bool :=
  decide (cfg.minDurationSeconds ≤ parseDuration duration) &&
    decide (parseDuration duration ≤ cfg.maxDurationSeconds)

/-- Source `hasQualityIndicators`: a quality-indicator hit, a professional-domain
hit, or a truthy view count above 10000. -/
def hasQualityIndicators (t : KeywordTables) (text : List Char)
    (content : ContentItem) : Bool :=
  t.qualityIndicators.any (fun i => hasSub (lowerChars i) text) ||
  t.professionalDomains.any (fun d_ => hasSub (lowerChars d_) text) ||
  (match content.viewCount with
   | some v => !(v == 0) && decide ((10000 : ℚ) < v)
   | none => false)

/-- Source `passesBasicFilter`, rule for rule in source order.  After the
`validateContent` gate the description is defaulted to the empty string
(`content.description = ''`). -/
def passesBasicFilter (t : KeywordTables) (cfg : Thresholds)
    (content : ContentItem) : Bool :=
  if !(validateContent content) then false
  else if content.title.length < 10 then false
  else
    let desc := content.description.getD ""
    let titleLC := lowerChars content.title
    let hasQualityTitle :=
      t.qualityIndicators.any (fun i => hasSub (lowerChars i) titleLC) ||
      t.professionalDomains.any (fun d_ => hasSub (lowerChars d_) titleLC)
    let minDescLength := if hasQualityTitle then 0 else cfg.minDescriptionLength
    if desc.length < minDescLength then false
    else if cfg.maxDescriptionLength < desc.length then false
    else
      let text := lowerChars (content.title ++ " " ++ desc)
      if hasIrrelevantKeywords t text then false
      else if content.duration.truthy && !(isValidDuration cfg content.duration) then false
      else if !(hasQualityIndicators t text content) then false
      else true

/-- Source `BasicContentFilter.process`: keep items passing the filter (free
stage, no cost). -/
def process (t : KeywordTables) (cfg : Thresholds)
    (items : List ContentItem) : List ContentItem :=
  items.filter (passesBasicFilter t cfg)

end BasicContentFilter

/-! ## KeywordRelevanceFilter -/

namespace KeywordRelevanceFilter

/-- Scan one interest entry: weighted contributions and match count from
the category name, its keywords, its subcategory names and subcategory
keywords.  `p || 5` models the JavaScript priority default. -/
def kwStep (text : List Char) (name : String) (d_ : InterestData) : ℚ × Nat :=
  let p := jsOrQ d_.priority 5
  let main : ℚ × Nat :=
    if hasSub (lowerChars name) text then (qmul p (mkRat 1 10), 1) else (0, 0)
  let withKw := (d_.keywords.getD []).foldl
    (fun acc kw => if hasSub (lowerChars kw) text
      then (qadd acc.1 (qmul p (mkRat 1 20)), acc.2 + 1) else acc) main
  match d_.subcategories with
  | none => withKw
  | some subs => subs.foldl
      (fun acc sub =>
        let sp := jsOrQ sub.2.priority 5
        let acc1 := if hasSub (lowerChars sub.1) text
          then (qadd acc.1 (qmul sp (mkRat 2 25)), acc.2 + 1) else acc
        sub.2.keywords.foldl
          (fun acc2 kw => if hasSub (lowerChars kw) text
            then (qadd acc2.1 (qmul sp (mkRat 3 100)), acc2.2 + 1) else acc2) acc1)
      withKw

/-- Accumulated `(totalScore, matchCount)` over all interests.  Legacy
array input uses the constant `{priority: 5, keywords: []}` entry the
source supplies in that case. -/
def kwScan (text : List Char) : UserInterests → ℚ × Nat
  | .array names => names.foldl
      (fun acc name =>
        let step := kwStep text name { priority := some 5, keywords := some [] }
        (qadd acc.1 step.1, acc.2 + step.2)) (0, 0)
  | .object entries => entries.foldl
      (fun acc e =>
        let step := kwStep text e.1 e.2
        (qadd acc.1 step.1, acc.2 + step.2)) (0, 0)

/-- Source `calculateKeywordRelevance`: clamp the weighted sum at 1, and force 0
when fewer than `keywordMatchThreshold` matches were counted. -/
def calculateKeywordRelevance (cfg : Thresholds) (ui : UserInterests)
    (content : ContentItem) : ℚ :=
  let scan := kwScan (textOf content) ui
  if cfg.keywordMatchThreshold ≤ scan.2 then jsMin scan.1 1 else 0

/-- Source `enrichWithKeywordRelevance` (the itemised match list is diagnostic
metadata and is not modelled). -/
def enrichWithKeywordRelevance (cfg : Thresholds) (ui : UserInterests)
    (content : ContentItem) : ContentItem :=
  { content with keywordRelevance := some (calculateKeywordRelevance cfg ui content) }

/-- Source `KeywordRelevanceFilter.process`: enrich, then keep items whose
relevance reaches `minTitleRelevance` (free stage). -/
def process (cfg : Thresholds) (ui : UserInterests)
    (items : List ContentItem) : List ContentItem :=
  (items.map (enrichWithKeywordRelevance cfg ui)).filter
    (fun c => decide (cfg.minTitleRelevance ≤ c.keywordRelevance.getD 0))

end KeywordRelevanceFilter

/-! ## QualityScorer -/

namespace QualityScorer

/-- Source `calculateQualityScore`: capped indicator/domain contributions,
view-count tier bonus, duration sweet-spot bonus, clamped at 1. -/
def calculateQualityScore (sc : ScoringConfig) (t : KeywordTables)
    (content : ContentItem) : ℚ :=
  let text := textOf content
  let qualityMatches := (t.qualityIndicators.filter
    (fun i => hasSub (lowerChars i) text)).length
  let s1 := jsMin (qmul (mkRat qualityMatches 1) sc.qualityIndicatorScore) (mkRat 2 5)
  let domainMatches := (t.professionalDomains.filter
    (fun d_ => hasSub (lowerChars d_) text)).length
  let s2 := jsMin (qmul (mkRat domainMatches 1) sc.domainMatchScore) (mkRat 3 10)
  let s3 := match content.viewCount with
    | some v =>
      if v = 0 then 0
      else if sc.viewCountThresholdHigh < v then sc.viewCountBonusHigh
      else if sc.viewCountThresholdMed < v then sc.viewCountBonusMed
      else 0
    | none => 0
  let s4 :=
    if content.duration.truthy then
      let d_ := parseDuration content.duration
      if sc.durationMinOptimal ≤ d_ ∧ d_ ≤ sc.durationMaxOptimal
      then sc.durationBonusScore else 0
    else 0
  jsMin (qadd (qadd (qadd s1 s2) s3) s4) 1

/-- Category names paired with the priority the scorer reads for them
(`userInterests[interest]?.priority || 5`, or 5 for legacy arrays). -/
def alignmentPairs : UserInterests → List (String × ℚ)
  | .array names => names.map (fun n => (n, 5))
  | .object entries => entries.map (fun e => (e.1, jsOrQ e.2.priority 5))

/-- Source `calculateInterestAlignment`: priority-weighted fraction of matched
category names; `0.5` when no interests are supplied. -/
def calculateInterestAlignment (content : ContentItem) (ui : UserInterests) : ℚ :=
  if (interestNames ui).isEmpty then mkRat 1 2
  else
    let text := textOf content
    let acc := (alignmentPairs ui).foldl
      (fun (acc : ℚ × ℚ) x =>
        let tp := qadd acc.2 x.2
        if hasSub (lowerChars x.1) text then (qadd acc.1 x.2, tp) else (acc.1, tp))
      (0, 0)
    if 0 < acc.2 then jsMin (qdiv acc.1 acc.2) 1 else 0

/-- Source `enrichWithQualityScores`.  Items reaching this stage carry
`keywordRelevance` set by the keyword stage; the `getD 0` read is only
exercised on such items. -/
def enrichWithQualityScores (sc : ScoringConfig) (t : KeywordTables)
    (ui : UserInterests) (content : ContentItem) : ContentItem :=
  let qualityScore := calculateQualityScore sc t content
  let interestAlignment := calculateInterestAlignment content ui
  let combinedScore :=
    qadd (qadd (qmul qualityScore sc.qualityWeight)
               (qmul (content.keywordRelevance.getD 0) sc.relevanceWeight))
         (qmul interestAlignment sc.alignmentWeight)
  { content with
    qualityScore := some qualityScore
    interestAlignment := some interestAlignment
    combinedScore := some combinedScore }

/-- Source `QualityScorer.process`: score every item and sort by descending
combined score (drops nothing, free stage). -/
def process (sc : ScoringConfig) (t : KeywordTables) (ui : UserInterests)
    (items : List ContentItem) : List ContentItem :=
  sortDescBy (fun c => c.combinedScore.getD 0)
    (items.map (enrichWithQualityScores sc t ui))

end QualityScorer

/-! ## OpenRouterService (External Scoring Client) -/

namespace OpenRouterService

/-- Running client statistics. -/
structure ORStats where
  totalRequests : Nat := 0
  successfulRequests : Nat := 0
  failedRequests : Nat := 0
  totalTokens : Nat := 0
  totalCost : ℚ := 0
  deriving Repr, DecidableEq

structure Usage where
  total_tokens : Option Nat := none
  deriving Repr, DecidableEq

/-- A successful HTTP response body (`response.data`); the chat payload
itself is opaque to the statistics logic. -/
structure ORResponse where
  usage : Option Usage := none
  body : String := ""
  deriving Repr, DecidableEq

/-- Primary and fallback model identifiers (`AnalysisConfig.models`). -/
structure ORConfig where
  model : String := "google/gemini-2.0-flash-001"
  fallbackModel : String := "meta-llama/llama-3.1-8b-instruct:free"
  deriving Repr, DecidableEq

def defaultORConfig : ORConfig := {}

/-- The static per-model rate table of `calculateCost`;
`costs[model] || costs['google/gemini-2.0-flash-001']` (the default rate
is 0, and 0 itself is falsy, which changes nothing). -/
def costRate (model : String) : ℚ :=
  let hit : Option ℚ :=
    if model = "gpt-3.5-turbo" then some (mkRat 2 1000000)
    else if model = "gpt-4" then some (mkRat 3 100000)
    else if model = "google/gemini-2.0-flash-001" then some 0
    else if model = "meta-llama/llama-3.1-8b-instruct:free" then some 0
    else if model = "openrouter/horizon-beta" then some (mkRat 1 1000000)
    else none
  jsOrQ hit 0

/-- Source `calculateCost(tokens, model) = tokens * rate`. -/
def calculateCost (tokens : ℚ) (model : String) : ℚ := qmul tokens (costRate model)

/-- Outcome of one underlying HTTP attempt against a given model. -/
inductive NetResult where
  | ok (r : ORResponse)
  | err (e : String)
  deriving Repr, DecidableEq

/-- Success bookkeeping of `makeRequest`: count the success and, when the
response carries a `usage` object, accumulate `total_tokens || 0` and its
estimated cost. -/
def recordSuccess (st : ORStats) (r : ORResponse) (model : String) : ORStats :=
  let st1 := { st with successfulRequests := st.successfulRequests + 1 }
  match r.usage with
  | some u =>
    { st1 with
      totalTokens := st1.totalTokens + u.total_tokens.getD 0
      totalCost := qadd st1.totalCost
        (calculateCost (mkRat (u.total_tokens.getD 0 : Nat) 1) model) }
  | none => st1

/-- Source `makeRequest(messages, …, model)`: one attempt with
`model || this.model`; on failure, when the failed model was the primary
and a distinct fallback is configured, retry once with the fallback;
otherwise re-raise.  The recursion of the source terminates because the
retry uses the fallback model; here that is made structural with fuel
(two is always enough, `makeRequest` below). -/
def makeRequestFuel (cfg : ORConfig) (net : String → NetResult) :
    Nat → Option String → ORStats → Except String ORResponse × ORStats
  | 0, _, st => (Except.error "fuel exhausted", st)
  | Nat.succ fuel, modelArg, st =>
    let requestModel := jsOrStr modelArg cfg.model
    let st1 := { st with totalRequests := st.totalRequests + 1 }
    match net requestModel with
    | .ok r => (Except.ok r, recordSuccess st1 r requestModel)
    | .err e =>
      let st2 := { st1 with failedRequests := st1.failedRequests + 1 }
      if requestModel = cfg.model ∧ cfg.fallbackModel ≠ cfg.model then
        makeRequestFuel cfg net fuel (some cfg.fallbackModel) st2
      else (Except.error e, st2)

def makeRequest (cfg : ORConfig) (net : String → NetResult)
    (modelArg : Option String) (st : ORStats) : Except String ORResponse × ORStats :=
  makeRequestFuel cfg net 2 modelArg st

end OpenRouterService

/-! ## QuickAIAnalyzer (Quick Analysis stage) -/

namespace QuickAIAnalyzer

/-- The composite external call of one quick batch (request + fence
stripping + JSON parse): either a raised error or the parsed score
array. -/
def QuickCall := List ContentItem → Except String (List ℚ)

/-- Source `analyzeBatch`: raise if the call raised or the score array length
does not match the batch; otherwise enrich every item with
`scores[index] || combinedScore || 0.5`, `aiAnalyzed = true`.  The
token-estimate batch cost is supplied by `costOf`. -/
def analyzeBatch (call : QuickCall) (costOf : List ContentItem → ℚ)
    (model : String) (batch : List ContentItem) :
    Except String (List ContentItem × ℚ) :=
  match call batch with
  | Except.error e => Except.error e
  | Except.ok scores =>
    if scores.length ≠ batch.length then
      Except.error "Invalid scores array"
    else
      Except.ok
        (List.zipWith
          (fun content score =>
            { content with
              quickAiScore := some (jsOrQ (some score)
                (jsOrQ content.combinedScore (mkRat 1 2)))
              aiAnalyzed := true
              aiModel := some model })
          batch scores,
         costOf batch)

/-- Per-item fallback applied when a batch fails: prior `combinedScore`
(or 0.5) as `quickAiScore`, `aiAnalyzed = false`, `fallback = true`. -/
def fallbackItem (e : String) (content : ContentItem) : ContentItem :=
  { content with
    quickAiScore := some (jsOrQ content.combinedScore (mkRat 1 2))
    aiAnalyzed := false
    fallback := true
    error := some e }

/-- Source `QuickAIAnalyzer.process`: batches of `batchSize` processed in order;
a failed batch falls back item-by-item and the loop continues — the stage
itself never raises. -/
def process (call : QuickCall) (costOf : List ContentItem → ℚ) (model : String)
    (cfg : ProcessingConfig) (items : List ContentItem) : List ContentItem × ℚ :=
  (chunkList cfg.batchSize items).foldl
    (fun acc batch =>
      match analyzeBatch call costOf model batch with
      | Except.ok res => (acc.1 ++ res.1, qadd acc.2 res.2)
      | Except.error e => (acc.1 ++ batch.map (fallbackItem e), acc.2))
    ([], 0)

end QuickAIAnalyzer

/-! ## FullAIAnalyzer (per-item deep analysis of the refactored pipeline) -/

namespace FullAIAnalyzer

/-- The composite external call of one full analysis (request + trim +
parse): raised error or parsed analysis object. -/
def FullCall := ContentItem → Except String FullResp

/-- Source `validateAnalysis`: fill the required fields with defaults (the
source mutates the analysis object in place). -/
def validateAnalysis (a : FullResp) : FullResp :=
  { relevanceScore := some (jsOrQ a.relevanceScore (mkRat 1 2))
    summary := some (jsOrStr a.summary "Analysis completed")
    categories := some (a.categories.getD ["General"])
    highlights := some (a.highlights.getD [])
    keyPoints := some (a.keyPoints.getD [])
    sentiment := some (jsOrStr a.sentiment "neutral") }

/-- Source `selectTopCandidates`: candidates at or above
`fullAnalysisThreshold` by `quickAiScore || combinedScore || 0`, sorted
descending, first `maxFullAnalysis` of them. -/
def selectTopCandidates (thr : Thresholds) (cfg : ProcessingConfig)
    (items : List ContentItem) : List ContentItem :=
  (sortDescBy (fun c => jsOrQ c.quickAiScore (jsOrQ c.combinedScore 0))
    (items.filter (fun c =>
      decide (thr.fullAnalysisThreshold ≤ jsOrQ c.quickAiScore (jsOrQ c.combinedScore 0))))).take
    cfg.maxFullAnalysis

/-- Source `analyzeContent`: call, validate, enrich; raises when the call (or
parse) raised. -/
def analyzeContent (call : FullCall) (costOf : ContentItem → ℚ) (model : String)
    (content : ContentItem) : Except String (ContentItem × ℚ) :=
  match call content with
  | Except.error e => Except.error e
  | Except.ok resp =>
    let fullAnalysis := validateAnalysis resp
    Except.ok
      ({ content with
         fullAnalysis := some fullAnalysis
         finalRelevanceScore := some (jsOrQ fullAnalysis.relevanceScore
           (jsOrQ content.quickAiScore (mkRat 1 2)))
         highlights := fullAnalysis.highlights.getD []
         categories := fullAnalysis.categories.getD []
         summary := some (jsOrStr fullAnalysis.summary "")
         keyPoints := fullAnalysis.keyPoints.getD []
         aiProcessed := true
         processingStage := some "full_ai"
         aiModel := some model },
       costOf content)

/-- The per-item fallback of the selection loop's `catch`. -/
def itemFallback (e : String) (content : ContentItem) : ContentItem :=
  { content with
    finalRelevanceScore := some (jsOrQ content.quickAiScore
      (jsOrQ content.combinedScore (mkRat 1 2)))
    aiProcessed := false
    error := some e
    processingStage := some "quick_ai_only" }

/-- Pass-through enrichment of the items not selected for full
analysis. -/
def passThrough (content : ContentItem) : ContentItem :=
  { content with
    finalRelevanceScore := some (jsOrQ content.quickAiScore
      (jsOrQ content.combinedScore (mkRat 1 2)))
    aiProcessed := content.aiAnalyzed
    processingStage := some (if content.aiAnalyzed then "quick_ai" else "keyword_filtered") }

/-- Source `FullAIAnalyzer.process`: when no candidate reaches the threshold the
input passes through at cost 0; otherwise each candidate is analysed
individually (a failure falls back and the loop continues), non-selected
items pass through, and the union is sorted by `finalRelevanceScore`. -/
def process (call : FullCall) (costOf : ContentItem → ℚ) (model : String)
    (thr : Thresholds) (cfg : ProcessingConfig)
    (items : List ContentItem) : List ContentItem × ℚ :=
  let topCandidates := selectTopCandidates thr cfg items
  if topCandidates.isEmpty then (items, 0)
  else
    let res := topCandidates.foldl
      (fun (acc : List ContentItem × ℚ) content =>
        match analyzeContent call costOf model content with
        | Except.ok r => (acc.1 ++ [r.1], qadd acc.2 r.2)
        | Except.error e => (acc.1 ++ [itemFallback e content], acc.2))
      ([], 0)
    let remaining := (items.filter
      (fun c => !(topCandidates.any (fun cand => cand.id == c.id)))).map passThrough
    (sortDescBy (fun c => c.finalRelevanceScore.getD 0) (res.1 ++ remaining), res.2)

end FullAIAnalyzer

/-! ## ComprehensiveAIAnalyzer (deep-analysis response validation) -/

namespace ComprehensiveAIAnalyzer

/-- A JSON field that should be an array: present as an array, present
but not an array, or missing (`Array.isArray` distinguishes the first
case from the other two). -/
inductive JsArr (α : Type) where
  | arr (l : List α)
  | nonArray
  | missing
  deriving Repr, DecidableEq

def JsArr.toListD : JsArr α → List α → List α
  | .arr l, _ => l
  | _, d_ => d_

/-- A raw highlight in the parsed response: either a bare string or an
object with optional fields. -/
inductive RawHighlight where
  | str (s : String)
  | obj (text : Option String) (relevance : Option ℚ) (reason : Option String)
  deriving Repr, DecidableEq

/-- The parsed comprehensive-analysis response object. -/
structure CompResp where
  relevanceScore : Option ℚ := none
  summary : Option String := none
  categories : JsArr String := .missing
  highlights : JsArr RawHighlight := .missing
  keyPoints : JsArr String := .missing
  tags : JsArr String := .missing
  complexity : Option String := none
  sentiment : Option String := none
  estimated_watch_time : Option String := none
  recommendationReason : Option String := none
  deriving Repr, DecidableEq

/-- The analysis object after `validateAndEnrichAnalysis` has filled all
required fields. -/
structure ValidAnalysis where
  relevanceScore : ℚ
  summary : String
  categories : List String
  highlights : List Highlight
  keyPoints : List String
  tags : List String
  complexity : String
  sentiment : String
  estimatedWatchTime : String
  recommendationReason : String
  deriving Repr, DecidableEq

/-- Normalisation of one raw highlight. -/
def validateHighlight : RawHighlight → Highlight
  | .str s =>
    { text := s, relevance := mkRat 7 10, reason := "Relevant content identified" }
  | .obj text relevance reason =>
    { text := jsOrStr text "Key point identified"
      relevance := jsMax 0 (jsMin 1 (jsOrQ relevance (mkRat 7 10)))
      reason := jsOrStr reason "Relevant to your interests" }

/-- Source `validateAndEnrichAnalysis(analysis, content)`: defaults field by
field (`relevanceScore || content.combinedScore || 0.5` clamped to
[0,1]; non-array collections replaced by defaults), validates highlight
structure, then limits array sizes to 5/10/15/3. -/
def validateAndEnrichAnalysis (a : CompResp) (content : ContentItem) : ValidAnalysis :=
  { relevanceScore :=
      jsMax 0 (jsMin 1 (jsOrQ a.relevanceScore (jsOrQ content.combinedScore (mkRat 1 2))))
    summary := jsOrStr a.summary
      ("Analysis of \"" ++ String.mk (content.title.toList.take 50) ++ "...\"")
    categories := (a.categories.toListD ["General"]).take 3
    highlights := ((a.highlights.toListD []).map validateHighlight).take 5
    keyPoints := (a.keyPoints.toListD []).take 10
    tags := (a.tags.toListD []).take 15
    complexity := jsOrStr a.complexity "intermediate"
    sentiment := jsOrStr a.sentiment "neutral"
    estimatedWatchTime := jsOrStr a.estimated_watch_time "Unknown"
    recommendationReason := jsOrStr a.recommendationReason "Content matches your interests" }

end ComprehensiveAIAnalyzer

/-! ## AnalysisPipeline (orchestrator) -/

namespace AnalysisPipeline

/-- One entry of `stageResults`.  For successful stages the source stores
the filter's `processed` counter as `inputCount`; the model records the
stage's input length, which is what that counter holds for the stages of
this pipeline. -/
structure StageRecord where
  name : String
  error : Option String := none
  inputCount : Nat := 0
  outputCount : Nat := 0
  cost : ℚ := 0
  deriving Repr, DecidableEq

/-- A pipeline stage as the orchestrator sees it: the content list in,
either a raised error or the surviving content plus the stage's
`metadata.totalCost || 0`. -/
def StageFun := List ContentItem → Except String (List ContentItem × ℚ)

/-- The stage loop of `AnalysisPipeline.process`: on success record the
stage and continue (stopping early when no content remains); on a raised
error record the message with `outputCount` 0 and run no further
stages. -/
def runStages : List (String × StageFun) → List ContentItem →
    List ContentItem × List StageRecord × ℚ
  | [], content => (content, [], 0)
  | (name, f) :: rest, content =>
    match f content with
    | Except.error msg =>
      (content, [{ name, error := some msg, inputCount := content.length,
                   outputCount := 0, cost := 0 }], 0)
    | Except.ok out =>
      let record : StageRecord :=
        { name, error := none, inputCount := content.length,
          outputCount := out.1.length, cost := out.2 }
      if out.1.isEmpty then (out.1, [record], out.2)
      else
        let next := runStages rest out.1
        (next.1, record :: next.2.1, qadd out.2 next.2.2)

/-- Source `finalRelevanceScore || quickAiScore || combinedScore || 0`, the
best-available score used by the final filter and sort. -/
def bestScore (c : ContentItem) : ℚ :=
  jsOrQ c.finalRelevanceScore (jsOrQ c.quickAiScore (jsOrQ c.combinedScore 0))

/-- Source `applyFinalFilter`: keep items whose best-available score reaches
`minTitleRelevance`, sorted descending by that score. -/
def applyFinalFilter (cfg : Thresholds) (content : List ContentItem) : List ContentItem :=
  sortDescBy bestScore
    (content.filter (fun c => decide (cfg.minTitleRelevance ≤ bestScore c)))

/-- The caller-visible result (`createFinalResult`). -/
structure PipelineResult where
  analyzedContent : List ContentItem
  totalCost : ℚ
  stageResults : List StageRecord
  costPerItem : ℚ
  originalCount : Nat
  finalCount : Nat
  deriving Repr, DecidableEq

/-- Source `AnalysisPipeline.process`: run the stages, apply the final filter,
assemble the result.  Always returns a `PipelineResult`. -/
def process (cfg : Thresholds) (stages : List (String × StageFun))
    (batch : List ContentItem) : PipelineResult :=
  let run := runStages stages batch
  let finalResults := applyFinalFilter cfg run.1
  { analyzedContent := finalResults
    totalCost := run.2.2
    stageResults := run.2.1
    costPerItem := if finalResults.length = 0 then 0
      else qdiv run.2.2 (mkRat finalResults.length 1)
    originalCount := batch.length
    finalCount := finalResults.length }

/-- The five stages of the refactored pipeline, with the two external
calls supplied as oracles. -/
def stagesOf (t : KeywordTables) (cfg : Thresholds) (sc : ScoringConfig)
    (proc : ProcessingConfig) (ui : UserInterests)
    (quickCall : QuickAIAnalyzer.QuickCall) (quickCost : List ContentItem → ℚ)
    (fullCall : FullAIAnalyzer.FullCall) (fullCost : ContentItem → ℚ)
    (model : String) : List (String × StageFun) :=
  [ ("BasicContentFilter", fun items =>
      Except.ok (BasicContentFilter.process t cfg items, 0)),
    ("KeywordRelevanceFilter", fun items =>
      Except.ok (KeywordRelevanceFilter.process cfg ui items, 0)),
    ("QualityScorer", fun items =>
      Except.ok (QualityScorer.process sc t ui items, 0)),
    ("QuickAIAnalyzer", fun items =>
      Except.ok (QuickAIAnalyzer.process quickCall quickCost model proc items)),
    ("FullAIAnalyzer", fun items =>
      Except.ok (FullAIAnalyzer.process fullCall fullCost model cfg proc items)) ]

end AnalysisPipeline

/-! ## Interest normalization (PUT /interests handler) -/

namespace InterestNormalizer

/-- One element of a legacy flat interests array (strings are kept,
anything else is skipped by the `typeof` guard). -/
inductive LegacyItem where
  | str (s : String)
  | nonString
  deriving Repr, DecidableEq

/-- The `keywords` field of a supplied category:
`Array.isArray(data.keywords)` distinguishes a real array. -/
inductive RawKeywords where
  | arr (ws : List String)
  | nonArray
  | missing
  deriving Repr, DecidableEq

/-- The value supplied for one category in hierarchical form; non-object
values are skipped by the handler.  Priorities are modelled as numeric or
absent. -/
inductive RawEntryData where
  | obj (priority : Option ℚ) (keywords : RawKeywords)
        (subcategories : Option (List (String × SubcatData)))
  | nonObject
  deriving Repr, DecidableEq

/-- The request body's `interests`: legacy array or hierarchical object
(the handler rejects any other shape before normalization). -/
inductive RawInterests where
  | legacy (items : List LegacyItem)
  | hier (entries : List (String × RawEntryData))
  deriving Repr, DecidableEq

/-- A normalized category. -/
structure NormCategory where
  priority : ℚ := 5
  keywords : List String := []
  subcategories : List (String × SubcatData) := []
  deriving Repr, DecidableEq

/-- JavaScript `String.prototype.trim` (ASCII whitespace suffices for the
claims considered). -/
def jsTrim (s : String) : String :=
  String.mk (((s.toList.dropWhile Char.isWhitespace).reverse.dropWhile
    Char.isWhitespace).reverse)

/-- Object-key assignment: replace the value of an existing key in place,
or append a new key. -/
def objSet (l : List (String × α)) (k : String) (v : α) : List (String × α) :=
  if l.any (fun e => e.1 == k) then
    l.map (fun e => if e.1 == k then (k, v) else e)
  else l ++ [(k, v)]

/-- One iteration of the legacy-array loop: keep trimmed non-blank
strings with the default category shape. -/
def legacyStep (acc : List (String × NormCategory)) (it : LegacyItem) :
    List (String × NormCategory) :=
  match it with
  | .str s =>
    if jsTrim s ≠ "" then
      objSet acc (jsTrim s) { priority := 5, keywords := [], subcategories := [] }
    else acc
  | .nonString => acc

/-- Source `Array.isArray(data.keywords) ? data.keywords : []`. -/
def normKeywords : RawKeywords → List String
  | .arr ws => ws
  | _ => []

/-- One iteration of the hierarchical loop:
`Math.max(1, Math.min(10, priority || 5))`, array-checked keywords,
`subcategories || {}`; non-object values are skipped. -/
def hierStep (acc : List (String × NormCategory)) (e : String × RawEntryData) :
    List (String × NormCategory) :=
  match e.2 with
  | .obj priority keywords subcategories =>
    objSet acc e.1
      { priority := jsMax 1 (jsMin 10 (jsOrQ priority 5))
        keywords := normKeywords keywords
        subcategories := subcategories.getD [] }
  | .nonObject => acc

/-- The normalization loop of the PUT /interests handler. -/
def processInterests : RawInterests → List (String × NormCategory)
  | .legacy items => items.foldl legacyStep []
  | .hier entries => entries.foldl hierStep []

end InterestNormalizer

/-! ## Auxiliary definitions used by the statements -/

/-- The duration rule of the basic filter in isolation:
`content.duration && !isValidDuration(content.duration)`. -/
def BasicContentFilter.durationRejects (cfg : Thresholds) (content : ContentItem) : Bool :=
  content.duration.truthy && !(BasicContentFilter.isValidDuration cfg content.duration)

/-- Source `passesBasicFilter` with the duration rule removed (all other rules,
in source order). -/
def BasicContentFilter.passesExceptDuration (t : KeywordTables) (cfg : Thresholds)
    (content : ContentItem) : Bool :=
  if !(BasicContentFilter.validateContent content) then false
  else if content.title.length < 10 then false
  else
    let desc := content.description.getD ""
    let titleLC := lowerChars content.title
    let hasQualityTitle :=
      t.qualityIndicators.any (fun i => hasSub (lowerChars i) titleLC) ||
      t.professionalDomains.any (fun d_ => hasSub (lowerChars d_) titleLC)
    let minDescLength := if hasQualityTitle then 0 else cfg.minDescriptionLength
    if desc.length < minDescLength then false
    else if cfg.maxDescriptionLength < desc.length then false
    else
      let text := lowerChars (content.title ++ " " ++ desc)
      if BasicContentFilter.hasIrrelevantKeywords t text then false
      else if !(BasicContentFilter.hasQualityIndicators t text content) then false
      else true

/-- Case-insensitive substring match of a term in the analysed text, as
both the filter and the spec formula use it. -/
def matchB (text : List Char) (s : String) : Bool := hasSub (lowerChars s) text

/-- A priority is either absent or an integer-range value in [1,10]
(well-formedness of a normalized interest model, §3 of the spec). -/
def priorityOk : Option ℚ → Bool
  | none => true
  | some q => decide (1 ≤ q) && decide (q ≤ 10)

def InterestData.wf (d : InterestData) : Bool :=
  priorityOk d.priority &&
    (d.subcategories.getD []).all (fun sub => priorityOk sub.2.priority)

def UserInterests.wf : UserInterests → Bool
  | .array _ => true
  | .object entries => entries.all (fun e => InterestData.wf e.2)

/-- The keyword-relevance formula exactly as the specification words it:
`priority*0.10` per category-name hit, `priority*0.05` per category
keyword hit, `subcategoryPriority*0.08` per subcategory-name hit,
`subcategoryPriority*0.03` per subcategory keyword hit. -/
def specCatScore (text : List Char) (e : String × InterestData) : ℚ :=
  let p := e.2.priority.getD 5
  (if matchB text e.1 then p * mkRat 1 10 else 0)
  + ((e.2.keywords.getD []).map
      (fun kw => if matchB text kw then p * mkRat 1 20 else 0)).sum
  + ((e.2.subcategories.getD []).map (fun sub =>
      let sp := sub.2.priority.getD 5
      (if matchB text sub.1 then sp * mkRat 2 25 else 0)
      + (sub.2.keywords.map
          (fun kw => if matchB text kw then sp * mkRat 3 100 else 0)).sum)).sum

/-- The total match count the spec formula counts alongside the score. -/
def specCatCount (text : List Char) (e : String × InterestData) : Nat :=
  (if matchB text e.1 then 1 else 0)
  + ((e.2.keywords.getD []).map (fun kw => if matchB text kw then 1 else 0)).sum
  + ((e.2.subcategories.getD []).map (fun sub =>
      (if matchB text sub.1 then 1 else 0)
      + (sub.2.keywords.map (fun kw => if matchB text kw then 1 else 0)).sum)).sum

/-- The specification's keyword relevance: weighted sum clamped at 1,
forced to 0 below the match threshold. -/
def specKeywordRelevance (cfg : Thresholds) (entries : List (String × InterestData))
    (content : ContentItem) : ℚ :=
  let text := textOf content
  if (entries.map (specCatCount text)).sum < cfg.keywordMatchThreshold then 0
  else min ((entries.map (specCatScore text)).sum) 1

/-- Priority normalization as the counterexample forces the claim to be
amended: absent or zero priority becomes 5; any other numeric priority is
clamped into [1,10]. -/
def claimPriority : Option ℚ → ℚ
  | none => 5
  | some q => if q = 0 then 5 else max 1 (min 10 q)

/-- The amended normalization of a hierarchical interests object. -/
def claimNormalize (entries : List (String × InterestNormalizer.RawEntryData)) :
    List (String × InterestNormalizer.NormCategory) :=
  entries.filterMap (fun e => match e.2 with
    | .obj p kw subs => some (e.1,
        { priority := claimPriority p
          keywords := InterestNormalizer.normKeywords kw
          subcategories := subs.getD [] })
    | .nonObject => none)

/-- The normalization the spec predicts for a legacy flat name list. -/
def claimLegacy (names : List String) : List (String × InterestNormalizer.NormCategory) :=
  names.map (fun s => (s, { priority := 5, keywords := [], subcategories := [] }))

/-- The per-item relation C2 asserts between a stage input item and the
corresponding fallback output item. -/
def quickFallbackRel (a c : ContentItem) : Prop :=
  c.quickAiScore = some (jsOrQ a.combinedScore (mkRat 1 2)) ∧
  c.aiAnalyzed = false ∧ c.fallback = true

/-- An optional score field that, when present, lies in [0,1]. -/
def optScoreOk (x : Option ℚ) : Prop := ∀ q, x = some q → 0 ≤ q ∧ q ≤ 1

/-- A priority list entry used when reducing legacy-array scanning to
hierarchical scanning. -/
def defaultEntryData : InterestData := { priority := some 5, keywords := some [] }

/-- A finite sequence of completed `makeRequest` calls (each element
supplies the network behaviour seen by that call and its model
argument). -/
def OpenRouterService.runRequests (cfg : OpenRouterService.ORConfig) :
    List ((String → OpenRouterService.NetResult) × Option String) →
    OpenRouterService.ORStats → OpenRouterService.ORStats
  | [], st => st
  | r :: rest, st =>
    OpenRouterService.runRequests cfg rest (OpenRouterService.makeRequest cfg r.1 r.2 st).2

/-- The statistics invariant: every request is counted exactly once as a
success or a failure. -/
def OpenRouterService.statsInv (st : OpenRouterService.ORStats) : Prop :=
  st.totalRequests = st.successfulRequests + st.failedRequests

/-! ## Concrete instances used in closed-form runs -/

def exTables : KeywordTables :=
  { irrelevantKeywords := ["clickbait"], qualityIndicators := ["tutorial"],
    professionalDomains := ["programming"] }

def exItem : ContentItem :=
  { id := 1, title := "Complete React Hooks Tutorial for Beginners",
    description := some (String.mk (List.replicate 80 'a')),
    viewCount := some 20000 }

def exInterests : UserInterests :=
  .object [("Programming", { priority := some 8, keywords := some ["react"] })]

def exZeroScoreItem : ContentItem := { exItem with combinedScore := some 0 }

def exScoredItem : ContentItem := { exItem with combinedScore := some (mkRat 4 5) }

def exFailingQuickCall : QuickAIAnalyzer.QuickCall := fun _ => Except.error "API error"

def exFailingFullCall : FullAIAnalyzer.FullCall := fun _ => Except.error "API error"

def exHighQuickCall : QuickAIAnalyzer.QuickCall := fun _ => Except.ok [mkRat 3 2]

def exNet : String → OpenRouterService.NetResult := fun m =>
  if m = "google/gemini-2.0-flash-001" then .err "primary down"
  else .ok { usage := some { total_tokens := some 100 } }

def exOkStage : AnalysisPipeline.StageFun := fun items => Except.ok (items, 0)

def exThrowStage : AnalysisPipeline.StageFun := fun _ => Except.error "stage blew up"

def exEmptyStage : AnalysisPipeline.StageFun := fun _ => Except.ok ([], 0)

/-! ## Bridge lemmas from the executable arithmetic to the field operations -/

theorem qadd_eq (a b : ℚ) : qadd a b = a + b := by
  have e1 : (a.num : ℚ) = a * a.den :=
    (div_eq_iff (by positivity : ((a.den : ℚ)) ≠ 0)).mp (Rat.num_div_den a)
  have e2 : (b.num : ℚ) = b * b.den :=
    (div_eq_iff (by positivity : ((b.den : ℚ)) ≠ 0)).mp (Rat.num_div_den b)
  rw [qadd, Rat.mkRat_eq_divInt, Rat.divInt_eq_div]
  push_cast
  rw [div_eq_iff (by positivity : ((a.den : ℚ) * b.den) ≠ 0)]
  linear_combination (b.den : ℚ) * e1 + (a.den : ℚ) * e2

theorem qmul_eq (a b : ℚ) : qmul a b = a * b := by
  have e1 : (a.num : ℚ) = a * a.den :=
    (div_eq_iff (by positivity : ((a.den : ℚ)) ≠ 0)).mp (Rat.num_div_den a)
  have e2 : (b.num : ℚ) = b * b.den :=
    (div_eq_iff (by positivity : ((b.den : ℚ)) ≠ 0)).mp (Rat.num_div_den b)
  rw [qmul, Rat.mkRat_eq_divInt, Rat.divInt_eq_div]
  push_cast
  rw [div_eq_iff (by positivity : ((a.den : ℚ) * b.den) ≠ 0)]
  linear_combination (b.num : ℚ) * e1 + (a * a.den) * e2

theorem qdiv_eq (a b : ℚ) : qdiv a b = a / b := by
  rcases eq_or_ne b 0 with rfl | hb
  · simp [qdiv, Rat.mkRat_eq_divInt]
  · have hbn : b.num ≠ 0 := Rat.num_ne_zero.mpr hb
    have e1 : (a.num : ℚ) = a * a.den :=
      (div_eq_iff (by positivity : ((a.den : ℚ)) ≠ 0)).mp (Rat.num_div_den a)
    have e2 : (b.num : ℚ) = b * b.den :=
      (div_eq_iff (by positivity : ((b.den : ℚ)) ≠ 0)).mp (Rat.num_div_den b)
    rw [qdiv]
    split
    · rename_i hneg
      have hneg' : ((b.num : ℚ)) < 0 := by exact_mod_cast hneg
      rw [Rat.mkRat_eq_divInt, Rat.divInt_eq_div]
      push_cast
      rw [abs_of_neg hneg']
      rw [div_eq_div_iff (mul_ne_zero (by positivity) (neg_ne_zero.mpr (by exact_mod_cast hbn))) hb]
      linear_combination (-((b.den : ℚ)) * b) * e1 + (a * (a.den : ℚ)) * e2
    · rename_i hpos
      have hpos' : (0 : ℚ) ≤ (b.num : ℚ) := by exact_mod_cast le_of_not_lt hpos
      rw [Rat.mkRat_eq_divInt, Rat.divInt_eq_div]
      push_cast
      rw [abs_of_nonneg hpos']
      rw [div_eq_div_iff (mul_ne_zero (by positivity) (by exact_mod_cast hbn)) hb]
      linear_combination ((b.den : ℚ) * b) * e1 + (-(a * (a.den : ℚ))) * e2

theorem jsMin_eq (a b : ℚ) : jsMin a b = min a b := by
  rw [jsMin]
  split
  · exact (min_eq_left (by assumption)).symm
  · exact (min_eq_right (le_of_not_le (by assumption))).symm

theorem jsMax_eq (a b : ℚ) : jsMax a b = max a b := by
  rw [jsMax]
  split
  · exact (max_eq_right (by assumption)).symm
  · exact (max_eq_left (le_of_not_le (by assumption))).symm


/-! ## C6 — absent description in the basic filter -/

/-- C6: the claim says an item whose title is present and at least 10
characters long is not rejected merely because its description is
absent.  The code contradicts this: `validateContent` requires a truthy
`description`, so the item below (which passes every other rule, as the
second conjunct shows by restoring a description) is rejected as
`Invalid content structure` before the `content.description = ''`
defaulting branch can run.  That defaulting branch (with its comment
`Handle missing descriptions`) is unreachable dead code, so the spec
states the intent and the code has a slip. -/
theorem basicFilter_rejects_absent_description :
    BasicContentFilter.passesBasicFilter exTables defaultThresholds
      { exItem with description := none } = false ∧
    10 ≤ exItem.title.length ∧
    BasicContentFilter.passesBasicFilter exTables defaultThresholds exItem = true := by
  decide

/-! ## C7 — the duration rule -/

/-- C7 (amended): the duration rule of the basic filter factors out of
`passesBasicFilter` exactly as `duration truthy && parsed seconds outside
[min,max]`; an absent duration never rejects, but a present duration that
is not a parseable encoded string — including a numeric seconds value —
parses to 0 seconds and is therefore rejected whenever 0 is outside the
configured range (as with the default minimum of 60 seconds). -/
theorem basicFilter_duration_rule (t : KeywordTables) (cfg : Thresholds)
    (content : ContentItem) :
    BasicContentFilter.passesBasicFilter t cfg content =
      (BasicContentFilter.passesExceptDuration t cfg content &&
        !(BasicContentFilter.durationRejects cfg content)) ∧
    (BasicContentFilter.durationRejects cfg content = true ↔
      content.duration.truthy = true ∧
        ¬(cfg.minDurationSeconds ≤ parseDuration content.duration ∧
          parseDuration content.duration ≤ cfg.maxDurationSeconds)) ∧
    (∀ n : ℚ, parseDuration (.num n) = 0) ∧
    (content.duration = .missing → BasicContentFilter.durationRejects cfg content = false) := by
  refine ⟨?_, ?_, fun _ => rfl, ?_⟩
  · unfold BasicContentFilter.passesBasicFilter BasicContentFilter.passesExceptDuration
      BasicContentFilter.durationRejects
    split_ifs <;> simp_all <;>
      rcases Bool.eq_false_or_eq_true content.duration.truthy with hb | hb <;> simp_all
  · unfold BasicContentFilter.durationRejects BasicContentFilter.isValidDuration
    constructor
    · intro h
      simp only [Bool.and_eq_true, Bool.not_eq_true', Bool.and_eq_false_iff,
        decide_eq_false_iff_not] at h
      refine ⟨h.1, ?_⟩
      intro hc
      rcases h.2 with h2 | h2
      · exact h2 hc.1
      · exact h2 hc.2
    · intro h
      simp only [Bool.and_eq_true, Bool.not_eq_true', Bool.and_eq_false_iff,
        decide_eq_false_iff_not]
      refine ⟨h.1, ?_⟩
      by_cases h1 : cfg.minDurationSeconds ≤ parseDuration content.duration
      · exact Or.inr (fun h2 => h.2 ⟨h1, h2⟩)
      · exact Or.inl h1
  · intro h
    unfold BasicContentFilter.durationRejects
    rw [h]
    rfl

/-- C7 counterexample: an item that passes the basic filter with no
duration is rejected once it carries the numeric duration 300 (a
perfectly reasonable five minutes, but not a parseable encoded string,
so it parses to 0 seconds) — the claim's assertion that such an item is
never rejected on account of its duration is false. -/
theorem basicFilter_rejects_unparseable_duration :
    BasicContentFilter.passesBasicFilter exTables defaultThresholds
      { exItem with duration := .num 300 } = false ∧
    BasicContentFilter.passesBasicFilter exTables defaultThresholds exItem = true := by
  decide

/-! ## C9 — deep-analysis response defaulting -/

/-- C9 (amended): `validateAndEnrichAnalysis` defaults field by field —
a missing relevance score falls back to the item's prior `combinedScore`
when that is present and nonzero (clamped to [0,1]; 0.5 when the
combined score is absent or zero), missing `highlights`/`keyPoints`/
`tags` arrays become empty, a missing `categories` array becomes
`["General"]`, and the result arrays are clamped to at most 5 highlights,
10 key points, 15 tags and 3 categories. -/
theorem validateAndEnrich_defaults (a : ComprehensiveAIAnalyzer.CompResp)
    (content : ContentItem) :
    (a.relevanceScore = none → ∀ q, content.combinedScore = some q → 0 < q → q ≤ 1 →
      (ComprehensiveAIAnalyzer.validateAndEnrichAnalysis a content).relevanceScore = q) ∧
    (a.relevanceScore = none →
      (content.combinedScore = none ∨ content.combinedScore = some 0) →
      (ComprehensiveAIAnalyzer.validateAndEnrichAnalysis a content).relevanceScore = mkRat 1 2) ∧
    (a.highlights = .missing →
      (ComprehensiveAIAnalyzer.validateAndEnrichAnalysis a content).highlights = []) ∧
    (a.keyPoints = .missing →
      (ComprehensiveAIAnalyzer.validateAndEnrichAnalysis a content).keyPoints = []) ∧
    (a.tags = .missing →
      (ComprehensiveAIAnalyzer.validateAndEnrichAnalysis a content).tags = []) ∧
    (a.categories = .missing →
      (ComprehensiveAIAnalyzer.validateAndEnrichAnalysis a content).categories = ["General"]) ∧
    (ComprehensiveAIAnalyzer.validateAndEnrichAnalysis a content).highlights.length ≤ 5 ∧
    (ComprehensiveAIAnalyzer.validateAndEnrichAnalysis a content).keyPoints.length ≤ 10 ∧
    (ComprehensiveAIAnalyzer.validateAndEnrichAnalysis a content).tags.length ≤ 15 ∧
    (ComprehensiveAIAnalyzer.validateAndEnrichAnalysis a content).categories.length ≤ 3 := by
  refine ⟨?_, ?_, ?_, ?_, ?_, ?_, ?_, ?_, ?_, ?_⟩
  · intro hr q hc hq0 hq1
    simp only [ComprehensiveAIAnalyzer.validateAndEnrichAnalysis, hr, hc, jsOrQ,
      if_neg (ne_of_gt hq0)]
    rw [jsMin_eq, jsMax_eq, min_eq_right hq1, max_eq_right (le_of_lt hq0)]
  · intro hr hc
    rcases hc with hc | hc <;>
      simp [ComprehensiveAIAnalyzer.validateAndEnrichAnalysis, hr, hc, jsOrQ,
        jsMin_eq, jsMax_eq] <;> decide
  · intro h
    simp [ComprehensiveAIAnalyzer.validateAndEnrichAnalysis, h,
      ComprehensiveAIAnalyzer.JsArr.toListD]
  · intro h
    simp [ComprehensiveAIAnalyzer.validateAndEnrichAnalysis, h,
      ComprehensiveAIAnalyzer.JsArr.toListD]
  · intro h
    simp [ComprehensiveAIAnalyzer.validateAndEnrichAnalysis, h,
      ComprehensiveAIAnalyzer.JsArr.toListD]
  · intro h
    simp [ComprehensiveAIAnalyzer.validateAndEnrichAnalysis, h,
      ComprehensiveAIAnalyzer.JsArr.toListD]
  · exact le_trans (List.length_take_le _ _) (le_refl 5)
  · exact List.length_take_le _ _
  · exact List.length_take_le _ _
  · exact List.length_take_le _ _

/-- C9 witness: a fully-missing response for an item with combined score
0.8 keeps that score, empties the highlights and defaults the
categories. -/
theorem validateAndEnrich_defaults_witness :
    (ComprehensiveAIAnalyzer.validateAndEnrichAnalysis {} exScoredItem).relevanceScore =
      mkRat 4 5 ∧
    (ComprehensiveAIAnalyzer.validateAndEnrichAnalysis {} exScoredItem).highlights = [] ∧
    (ComprehensiveAIAnalyzer.validateAndEnrichAnalysis {} exScoredItem).categories =
      ["General"] :=
  ⟨(validateAndEnrich_defaults {} exScoredItem).1 rfl (mkRat 4 5) rfl (by decide) (by decide),
   (validateAndEnrich_defaults {} exScoredItem).2.2.1 rfl,
   (validateAndEnrich_defaults {} exScoredItem).2.2.2.2.2.1 rfl⟩

/-- C9 counterexample: with every response field missing and a prior
combined score of 0, the validated analysis has `categories =
["General"]` (the claim says missing arrays become empty) and
`relevanceScore = 0.5` (the claim says it falls back to the prior
combined score, which is 0 here). -/
theorem validateAndEnrich_defaults_counterexample :
    (ComprehensiveAIAnalyzer.validateAndEnrichAnalysis {} exZeroScoreItem).categories =
      ["General"] ∧
    ¬((ComprehensiveAIAnalyzer.validateAndEnrichAnalysis {} exZeroScoreItem).categories = []) ∧
    (ComprehensiveAIAnalyzer.validateAndEnrichAnalysis {} exZeroScoreItem).relevanceScore =
      mkRat 1 2 ∧
    ¬((ComprehensiveAIAnalyzer.validateAndEnrichAnalysis {} exZeroScoreItem).relevanceScore = 0) := by
  decide

/-! ## C8 — interest normalization -/

namespace InterestNormalizer

theorem objSet_of_not_mem (l : List (String × α)) (k : String) (v : α)
    (h : ∀ x ∈ l, x.1 ≠ k) : objSet l k v = l ++ [(k, v)] := by
  unfold objSet
  rw [if_neg]
  simp only [List.any_eq_true, beq_iff_eq, not_exists, not_and]
  intro x hx
  exact h x hx

theorem claimPriority_eq (p : Option ℚ) :
    jsMax 1 (jsMin 10 (jsOrQ p 5)) = claimPriority p := by
  rcases p with _ | q
  · decide
  · by_cases hq : q = 0
    · subst hq; decide
    · simp [claimPriority, jsOrQ, hq, jsMin_eq, jsMax_eq, min_comm, max_comm]

theorem claimPriority_bounds (p : Option ℚ) :
    1 ≤ claimPriority p ∧ claimPriority p ≤ 10 := by
  rcases p with _ | q
  · constructor <;> decide
  · by_cases hq : q = 0
    · subst hq; constructor <;> decide
    · simp only [claimPriority, if_neg hq]
      exact ⟨le_max_left 1 _, max_le (by norm_num) (min_le_left 10 q)⟩

theorem foldl_hierStep (entries : List (String × RawEntryData))
    (acc : List (String × NormCategory))
    (hacc : ∀ e ∈ entries, ∀ x ∈ acc, x.1 ≠ e.1)
    (hnd : (entries.map Prod.fst).Nodup) :
    entries.foldl hierStep acc = acc ++ claimNormalize entries := by
  induction entries generalizing acc with
  | nil => simp [claimNormalize]
  | cons e rest ih =>
    rcases e with ⟨k, data⟩
    rcases data with ⟨p, kw, subs⟩ | _
    · have hstep : hierStep acc (k, RawEntryData.obj p kw subs) =
          acc ++ [(k, { priority := jsMax 1 (jsMin 10 (jsOrQ p 5))
                        keywords := normKeywords kw
                        subcategories := subs.getD [] })] :=
        objSet_of_not_mem _ _ _ (fun x hx => hacc _ (List.mem_cons_self _ _) x hx)
      have hnd' : (rest.map Prod.fst).Nodup := (List.nodup_cons.mp hnd).2
      have hknotin : k ∉ rest.map Prod.fst := (List.nodup_cons.mp hnd).1
      rw [List.foldl_cons, hstep, ih _ ?_ hnd']
      · simp [claimNormalize, claimPriority_eq]
      · intro e' he' x hx
        rcases List.mem_append.mp hx with hx | hx
        · exact hacc e' (List.mem_cons_of_mem _ he') x hx
        · simp only [List.mem_singleton] at hx
          subst hx
          dsimp only
          intro hkk
          apply hknotin
          have hmem : e'.1 ∈ rest.map Prod.fst := List.mem_map_of_mem Prod.fst he'
          rwa [← hkk] at hmem
    · rw [List.foldl_cons]
      show rest.foldl hierStep acc = acc ++ claimNormalize ((k, RawEntryData.nonObject) :: rest)
      rw [ih _ (fun e' he' => hacc e' (List.mem_cons_of_mem _ he')) (List.nodup_cons.mp hnd).2]
      simp [claimNormalize]

theorem foldl_legacyStep (names : List String)
    (acc : List (String × NormCategory))
    (hn : ∀ s ∈ names, jsTrim s = s ∧ s ≠ "")
    (hnd : names.Nodup)
    (hacc : ∀ s ∈ names, ∀ x ∈ acc, x.1 ≠ s) :
    (names.map LegacyItem.str).foldl legacyStep acc = acc ++ claimLegacy names := by
  induction names generalizing acc with
  | nil => simp [claimLegacy]
  | cons s rest ih =>
    have hs := hn s (List.mem_cons_self _ _)
    have hstep : legacyStep acc (LegacyItem.str s) =
        acc ++ [(s, { priority := 5, keywords := [], subcategories := [] })] := by
      show (if jsTrim s ≠ "" then
          objSet acc (jsTrim s) { priority := 5, keywords := [], subcategories := [] }
        else acc) = _
      rw [if_pos (by rw [hs.1]; exact hs.2), hs.1]
      exact objSet_of_not_mem _ _ _ (fun x hx => hacc _ (List.mem_cons_self _ _) x hx)
    have hnd' := (List.nodup_cons.mp hnd).2
    have hsnotin : s ∉ rest := (List.nodup_cons.mp hnd).1
    rw [List.map_cons, List.foldl_cons, hstep,
      ih _ (fun x hx => hn x (List.mem_cons_of_mem _ hx)) hnd' ?_]
    · simp [claimLegacy]
    · intro s' hs' x hx
      rcases List.mem_append.mp hx with hx | hx
      · exact hacc s' (List.mem_cons_of_mem _ hs') x hx
      · simp only [List.mem_singleton] at hx
        subst hx
        dsimp only
        intro hss
        exact hsnotin (hss ▸ hs')

end InterestNormalizer

/-- C8 (amended): normalization never fails and, for distinct category
keys, produces exactly the claimed shape — except that an out-of-range
numeric priority is clamped into [1,10] rather than set to 5: the
normalized priority is 5 only when the supplied priority is absent or 0,
and otherwise `max 1 (min 10 priority)`; missing or non-array keyword
collections become `[]`, missing subcategory collections become the
empty mapping, every normalized priority lies in [1,10], and a legacy
flat list of (trimmed, non-blank, distinct) names yields
`{priority: 5, keywords: [], subcategories: {}}` for every name. -/
theorem interests_normalization (entries : List (String × InterestNormalizer.RawEntryData))
    (names : List String)
    (hnd : (entries.map Prod.fst).Nodup)
    (hn : ∀ s ∈ names, InterestNormalizer.jsTrim s = s ∧ s ≠ "")
    (hnd2 : names.Nodup) :
    InterestNormalizer.processInterests (.hier entries) = claimNormalize entries ∧
    (∀ e ∈ InterestNormalizer.processInterests (.hier entries),
      1 ≤ e.2.priority ∧ e.2.priority ≤ 10) ∧
    InterestNormalizer.processInterests (.legacy (names.map .str)) = claimLegacy names := by
  have h1 : InterestNormalizer.processInterests (.hier entries) = claimNormalize entries := by
    unfold InterestNormalizer.processInterests
    exact InterestNormalizer.foldl_hierStep entries [] (by simp) hnd
  refine ⟨h1, ?_, ?_⟩
  · intro e he
    rw [h1] at he
    rcases List.mem_filterMap.mp he with ⟨a, _, ha⟩
    rcases a with ⟨k, ⟨p, kw, subs⟩ | _⟩
    · simp only [Option.some_inj] at ha
      rw [← ha]
      exact InterestNormalizer.claimPriority_bounds p
    · simp at ha
  · unfold InterestNormalizer.processInterests
    exact InterestNormalizer.foldl_legacyStep names [] hn hnd2 (by simp)

/-- C8 witness: the spec's end-to-end scenario `["AI", "Web"]` and a
small hierarchical object normalize to the claimed shapes. -/
theorem interests_normalization_witness :
    InterestNormalizer.processInterests (.legacy [.str "AI", .str "Web"]) =
      claimLegacy ["AI", "Web"] ∧
    InterestNormalizer.processInterests
        (.hier [("AI", .obj none .missing none)]) =
      claimNormalize [("AI", .obj none .missing none)] :=
  ⟨(interests_normalization [] ["AI", "Web"] (by decide) (by decide) (by decide)).2.2,
   (interests_normalization [("AI", .obj none .missing none)] [] (by decide) (by decide)
      (by decide)).1⟩

/-- C8 counterexample: a supplied priority of 15 is outside [1,10], and
the claim says it is coerced to 5; the handler instead clamps it to
10. -/
theorem interests_normalization_counterexample :
    (InterestNormalizer.processInterests
        (.hier [("X", .obj (some 15) .missing none)])).map (fun e => e.2.priority) =
      [10] ∧ ¬((10 : ℚ) = 5) := by
  decide

/-! ## C3 / C10 — External Scoring Client -/

namespace OpenRouterService

theorem costRate_nonneg (model : String) : 0 ≤ costRate model := by
  unfold costRate
  split_ifs <;> simp [jsOrQ] <;> decide

theorem calculateCost_nat_nonneg (n : Nat) (model : String) :
    0 ≤ calculateCost (mkRat n 1) model := by
  rw [calculateCost, qmul_eq]
  refine mul_nonneg ?_ (costRate_nonneg model)
  simp

theorem recordSuccess_totalRequests (st : ORStats) (r : ORResponse) (m : String) :
    (recordSuccess st r m).totalRequests = st.totalRequests := by
  unfold recordSuccess
  cases r.usage <;> rfl

theorem recordSuccess_counts (st : ORStats) (r : ORResponse) (m : String) :
    (recordSuccess st r m).successfulRequests = st.successfulRequests + 1 ∧
    (recordSuccess st r m).failedRequests = st.failedRequests := by
  unfold recordSuccess
  cases r.usage <;> exact ⟨rfl, rfl⟩

theorem recordSuccess_tokens (st : ORStats) (r : ORResponse) (m : String) :
    st.totalTokens ≤ (recordSuccess st r m).totalTokens := by
  unfold recordSuccess
  cases r.usage <;> simp

theorem recordSuccess_cost (st : ORStats) (r : ORResponse) (m : String) :
    st.totalCost ≤ (recordSuccess st r m).totalCost := by
  unfold recordSuccess
  cases hu : r.usage with
  | none => exact le_refl _
  | some u =>
    simp only [qadd_eq]
    exact le_add_of_nonneg_right (calculateCost_nat_nonneg _ _)

/-- One unfolding step of the fueled request loop. -/
theorem makeRequestFuel_succ (cfg : ORConfig) (net : String → NetResult)
    (fuel : Nat) (m : Option String) (st : ORStats) :
    makeRequestFuel cfg net (fuel + 1) m st =
      (match net (jsOrStr m cfg.model) with
       | .ok r => (Except.ok r,
          recordSuccess { st with totalRequests := st.totalRequests + 1 } r
            (jsOrStr m cfg.model))
       | .err e =>
         if jsOrStr m cfg.model = cfg.model ∧ cfg.fallbackModel ≠ cfg.model then
           makeRequestFuel cfg net fuel (some cfg.fallbackModel)
             { st with totalRequests := st.totalRequests + 1,
                       failedRequests := st.failedRequests + 1 }
         else (Except.error e,
           { st with totalRequests := st.totalRequests + 1,
                     failedRequests := st.failedRequests + 1 })) := rfl

theorem makeRequestFuel_inv (cfg : ORConfig) (net : String → NetResult) :
    ∀ (fuel : Nat) (m : Option String) (st : ORStats), statsInv st →
      statsInv (makeRequestFuel cfg net fuel m st).2 := by
  intro fuel
  induction fuel with
  | zero => intro m st h; exact h
  | succ fuel ih =>
    intro m st h
    rw [makeRequestFuel_succ]
    cases hnet : net (jsOrStr m cfg.model) with
    | ok r =>
      dsimp only
      simp only [statsInv, recordSuccess_totalRequests,
        (recordSuccess_counts _ r _).1, (recordSuccess_counts _ r _).2]
      simp only [statsInv] at h
      omega
    | err e =>
      dsimp only
      by_cases hc : jsOrStr m cfg.model = cfg.model ∧ cfg.fallbackModel ≠ cfg.model
      · rw [if_pos hc]
        apply ih
        simp only [statsInv] at h ⊢
        omega
      · rw [if_neg hc]
        simp only [statsInv] at h ⊢
        omega

theorem makeRequestFuel_tokens (cfg : ORConfig) (net : String → NetResult) :
    ∀ (fuel : Nat) (m : Option String) (st : ORStats),
      st.totalTokens ≤ (makeRequestFuel cfg net fuel m st).2.totalTokens := by
  intro fuel
  induction fuel with
  | zero => intro m st; exact le_refl _
  | succ fuel ih =>
    intro m st
    rw [makeRequestFuel_succ]
    cases hnet : net (jsOrStr m cfg.model) with
    | ok r =>
      dsimp only
      exact recordSuccess_tokens { st with totalRequests := st.totalRequests + 1 } r _
    | err e =>
      dsimp only
      by_cases hc : jsOrStr m cfg.model = cfg.model ∧ cfg.fallbackModel ≠ cfg.model
      · rw [if_pos hc]
        exact ih (some cfg.fallbackModel)
          { st with totalRequests := st.totalRequests + 1,
                    failedRequests := st.failedRequests + 1 }
      · rw [if_neg hc]

theorem makeRequestFuel_cost (cfg : ORConfig) (net : String → NetResult) :
    ∀ (fuel : Nat) (m : Option String) (st : ORStats),
      st.totalCost ≤ (makeRequestFuel cfg net fuel m st).2.totalCost := by
  intro fuel
  induction fuel with
  | zero => intro m st; exact le_refl _
  | succ fuel ih =>
    intro m st
    rw [makeRequestFuel_succ]
    cases hnet : net (jsOrStr m cfg.model) with
    | ok r =>
      dsimp only
      exact recordSuccess_cost { st with totalRequests := st.totalRequests + 1 } r _
    | err e =>
      dsimp only
      by_cases hc : jsOrStr m cfg.model = cfg.model ∧ cfg.fallbackModel ≠ cfg.model
      · rw [if_pos hc]
        exact ih (some cfg.fallbackModel)
          { st with totalRequests := st.totalRequests + 1,
                    failedRequests := st.failedRequests + 1 }
      · rw [if_neg hc]

theorem makeRequestFuel_total_le (cfg : ORConfig) (net : String → NetResult)
    (fuel : Nat) (m : Option String) (st : ORStats) :
    (makeRequestFuel cfg net fuel m st).2.totalRequests ≤ st.totalRequests + fuel := by
  induction fuel generalizing m st with
  | zero => exact le_refl _
  | succ fuel ih =>
    rw [makeRequestFuel_succ]
    cases hnet : net (jsOrStr m cfg.model) with
    | ok r =>
      dsimp only
      rw [recordSuccess_totalRequests]
      dsimp only
      omega
    | err e =>
      dsimp only
      by_cases hc : jsOrStr m cfg.model = cfg.model ∧ cfg.fallbackModel ≠ cfg.model
      · rw [if_pos hc]
        refine le_trans (ih (some cfg.fallbackModel)
          { st with totalRequests := st.totalRequests + 1,
                    failedRequests := st.failedRequests + 1 }) ?_
        dsimp only
        omega
      · rw [if_neg hc]
        dsimp only
        omega

theorem runRequests_inv (cfg : ORConfig) :
    ∀ (reqs : List ((String → NetResult) × Option String)) (st : ORStats),
      statsInv st → statsInv (runRequests cfg reqs st) := by
  intro reqs
  induction reqs with
  | nil => intro st h; exact h
  | cons r rest ih =>
    intro st h
    exact ih _ (makeRequestFuel_inv cfg r.1 2 r.2 st h)

theorem runRequests_tokens (cfg : ORConfig) :
    ∀ (reqs : List ((String → NetResult) × Option String)) (st : ORStats),
      st.totalTokens ≤ (runRequests cfg reqs st).totalTokens := by
  intro reqs
  induction reqs with
  | nil => intro st; exact le_refl _
  | cons r rest ih =>
    intro st
    exact le_trans (makeRequestFuel_tokens cfg r.1 2 r.2 st) (ih _)

theorem runRequests_cost (cfg : ORConfig) :
    ∀ (reqs : List ((String → NetResult) × Option String)) (st : ORStats),
      st.totalCost ≤ (runRequests cfg reqs st).totalCost := by
  intro reqs
  induction reqs with
  | nil => intro st; exact le_refl _
  | cons r rest ih =>
    intro st
    exact le_trans (makeRequestFuel_cost cfg r.1 2 r.2 st) (ih _)

theorem runRequests_append (cfg : ORConfig)
    (l1 l2 : List ((String → NetResult) × Option String)) :
    ∀ st, runRequests cfg (l1 ++ l2) st = runRequests cfg l2 (runRequests cfg l1 st) := by
  induction l1 with
  | nil => intro st; rfl
  | cons r rest ih =>
    intro st
    simp only [List.cons_append, runRequests]
    exact ih _

end OpenRouterService

/-- C3: starting a call chain with the primary model (a distinct,
non-empty fallback model being configured, as in `AnalysisConfig`), a
successful primary attempt is returned after one request; a failed
primary attempt is retried exactly once with the configured fallback
model, whose response is returned on success; if the fallback also
errors, that error propagates to the caller, and in every case the chain
issues at most two underlying requests. -/
theorem makeRequest_failover (cfg : OpenRouterService.ORConfig)
    (net : String → OpenRouterService.NetResult) (st : OpenRouterService.ORStats)
    (hfb : cfg.fallbackModel ≠ cfg.model) (hfbne : cfg.fallbackModel ≠ "") :
    (∀ r, net cfg.model = .ok r →
      (OpenRouterService.makeRequest cfg net none st).1 = Except.ok r ∧
      (OpenRouterService.makeRequest cfg net none st).2.totalRequests =
        st.totalRequests + 1) ∧
    (∀ e r, net cfg.model = .err e → net cfg.fallbackModel = .ok r →
      (OpenRouterService.makeRequest cfg net none st).1 = Except.ok r ∧
      (OpenRouterService.makeRequest cfg net none st).2.totalRequests =
        st.totalRequests + 2) ∧
    (∀ e e2, net cfg.model = .err e → net cfg.fallbackModel = .err e2 →
      (OpenRouterService.makeRequest cfg net none st).1 = Except.error e2 ∧
      (OpenRouterService.makeRequest cfg net none st).2.totalRequests =
        st.totalRequests + 2) ∧
    (OpenRouterService.makeRequest cfg net none st).2.totalRequests ≤
      st.totalRequests + 2 := by
  have hm0 : jsOrStr none cfg.model = cfg.model := rfl
  have hjs : jsOrStr (some cfg.fallbackModel) cfg.model = cfg.fallbackModel := by
    simp [jsOrStr, hfbne]
  have hcond2 : ¬(cfg.fallbackModel = cfg.model ∧ cfg.fallbackModel ≠ cfg.model) := by
    rintro ⟨h1, h2⟩
    exact h2 h1
  refine ⟨?_, ?_, ?_, ?_⟩
  · intro r hr
    unfold OpenRouterService.makeRequest
    rw [OpenRouterService.makeRequestFuel_succ, hm0, hr]
    dsimp only
    exact ⟨rfl, (OpenRouterService.recordSuccess_totalRequests _ r _).trans rfl⟩
  · intro e r he hr
    unfold OpenRouterService.makeRequest
    rw [OpenRouterService.makeRequestFuel_succ, hm0, he]
    dsimp only
    rw [if_pos (⟨rfl, hfb⟩ : cfg.model = cfg.model ∧ cfg.fallbackModel ≠ cfg.model)]
    rw [OpenRouterService.makeRequestFuel_succ, hjs, hr]
    dsimp only
    exact ⟨rfl, (OpenRouterService.recordSuccess_totalRequests _ r _).trans rfl⟩
  · intro e e2 he he2
    unfold OpenRouterService.makeRequest
    rw [OpenRouterService.makeRequestFuel_succ, hm0, he]
    dsimp only
    rw [if_pos (⟨rfl, hfb⟩ : cfg.model = cfg.model ∧ cfg.fallbackModel ≠ cfg.model)]
    rw [OpenRouterService.makeRequestFuel_succ, hjs, he2]
    dsimp only
    rw [if_neg hcond2]
    exact ⟨rfl, rfl⟩
  · exact OpenRouterService.makeRequestFuel_total_le cfg net 2 none st

/-- C3 witness: with the default model configuration, a network where
the primary model is down and the fallback answers, the chain returns
the fallback's response after exactly two requests. -/
theorem makeRequest_failover_witness :
    (OpenRouterService.makeRequest OpenRouterService.defaultORConfig exNet none {}).1 =
      Except.ok { usage := some { total_tokens := some 100 } } ∧
    (OpenRouterService.makeRequest OpenRouterService.defaultORConfig exNet none {}).2.totalRequests =
      OpenRouterService.ORStats.totalRequests {} + 2 :=
  (makeRequest_failover OpenRouterService.defaultORConfig exNet {} (by decide) (by decide)).2.1
    "primary down" { usage := some { total_tokens := some 100 } } (by decide) (by decide)

/-- C10: over any finite sequence of completed `makeRequest` call chains
(a fallback retry counting as its own request), the client statistics
keep `totalRequests = successfulRequests + failedRequests`, and both
`totalTokens` and `totalCost` are non-negative and non-decreasing along
the sequence. -/
theorem client_stats_invariant (cfg : OpenRouterService.ORConfig)
    (reqs : List ((String → OpenRouterService.NetResult) × Option String))
    (st : OpenRouterService.ORStats)
    (hinv : OpenRouterService.statsInv st) (hcost : 0 ≤ st.totalCost) :
    OpenRouterService.statsInv (OpenRouterService.runRequests cfg reqs st) ∧
    st.totalTokens ≤ (OpenRouterService.runRequests cfg reqs st).totalTokens ∧
    st.totalCost ≤ (OpenRouterService.runRequests cfg reqs st).totalCost ∧
    0 ≤ (OpenRouterService.runRequests cfg reqs st).totalCost ∧
    (∀ l1 l2, reqs = l1 ++ l2 →
      (OpenRouterService.runRequests cfg l1 st).totalTokens ≤
        (OpenRouterService.runRequests cfg reqs st).totalTokens ∧
      (OpenRouterService.runRequests cfg l1 st).totalCost ≤
        (OpenRouterService.runRequests cfg reqs st).totalCost) := by
  refine ⟨OpenRouterService.runRequests_inv cfg reqs st hinv,
    OpenRouterService.runRequests_tokens cfg reqs st,
    OpenRouterService.runRequests_cost cfg reqs st,
    le_trans hcost (OpenRouterService.runRequests_cost cfg reqs st), ?_⟩
  intro l1 l2 hsplit
  subst hsplit
  rw [OpenRouterService.runRequests_append]
  exact ⟨OpenRouterService.runRequests_tokens cfg l2 _,
    OpenRouterService.runRequests_cost cfg l2 _⟩

/-- C10 witness: a two-chain sequence (one failing over, one failing
outright) from fresh statistics keeps the invariant and grows the
counters. -/
theorem client_stats_invariant_witness :
    OpenRouterService.statsInv
      (OpenRouterService.runRequests OpenRouterService.defaultORConfig
        [(exNet, none), (fun _ => .err "down", none)] {}) ∧
    OpenRouterService.ORStats.totalTokens {} ≤
      (OpenRouterService.runRequests OpenRouterService.defaultORConfig
        [(exNet, none), (fun _ => .err "down", none)] {}).totalTokens :=
  ⟨(client_stats_invariant OpenRouterService.defaultORConfig
      [(exNet, none), (fun _ => .err "down", none)] {} rfl (by decide)).1,
   (client_stats_invariant OpenRouterService.defaultORConfig
      [(exNet, none), (fun _ => .err "down", none)] {} rfl (by decide)).2.1⟩

/-! ## C4 — keyword relevance formula -/

theorem foldl_shift (l : List α) (step : ℚ × Nat → α → ℚ × Nat)
    (g : α → ℚ) (h : α → Nat)
    (hstep : ∀ acc, ∀ x ∈ l, step acc x = (acc.1 + g x, acc.2 + h x)) :
    ∀ s0, l.foldl step s0 = (s0.1 + (l.map g).sum, s0.2 + (l.map h).sum) := by
  induction l with
  | nil => intro s0; simp
  | cons x t ih =>
    intro s0
    rw [List.foldl_cons, hstep s0 x (List.mem_cons_self _ _),
      ih (fun acc y hy => hstep acc y (List.mem_cons_of_mem _ hy)) _]
    simp [add_assoc]

theorem priorityOk_jsOrQ (p : Option ℚ) (hp : priorityOk p = true) :
    jsOrQ p 5 = p.getD 5 := by
  rcases p with _ | q
  · rfl
  · simp only [priorityOk, Bool.and_eq_true, decide_eq_true_eq] at hp
    simp [jsOrQ, show q ≠ 0 from fun h => by rw [h] at hp; exact absurd hp.1 (by norm_num)]

theorem kwStep_eq (text : List Char) (name : String) (d_ : InterestData)
    (hp : priorityOk d_.priority = true)
    (hsp : ∀ sub ∈ d_.subcategories.getD [], priorityOk sub.2.priority = true) :
    KeywordRelevanceFilter.kwStep text name d_ =
      (specCatScore text (name, d_), specCatCount text (name, d_)) := by
  obtain ⟨p0, kws0, subs0⟩ := d_
  simp only [InterestData.priority] at hp
  simp only [InterestData.subcategories] at hsp
  have hkw : ∀ (acc : ℚ × Nat), ∀ kw ∈ kws0.getD [],
      (if hasSub (lowerChars kw) text then
        (qadd acc.1 (qmul (p0.getD 5) (mkRat 1 20)), acc.2 + 1) else acc) =
      (acc.1 + (if matchB text kw then (p0.getD 5) * mkRat 1 20 else 0),
       acc.2 + (if matchB text kw then 1 else 0)) := by
    intro acc kw _
    by_cases hm : matchB text kw
    · rw [if_pos hm, if_pos, if_pos hm, qadd_eq, qmul_eq]
      exact hm
    · rw [if_neg hm, if_neg, if_neg hm, add_zero, add_zero]
      exact hm
  rcases subs0 with _ | subs
  · unfold KeywordRelevanceFilter.kwStep specCatScore specCatCount
    rw [priorityOk_jsOrQ _ hp]
    dsimp only
    rw [foldl_shift _ _ _ _ hkw]
    simp only [Option.getD_none, List.map_nil, List.sum_nil, add_zero]
    by_cases hm : matchB text name
    · rw [if_pos, if_pos hm, if_pos hm, qmul_eq]
      exact hm
    · rw [if_neg (show ¬hasSub (lowerChars name) text = true from hm), if_neg hm, if_neg hm]
  · have hsub : ∀ (acc : ℚ × Nat), ∀ sub ∈ subs,
        (let sp := jsOrQ sub.2.priority 5
         let acc1 := if hasSub (lowerChars sub.1) text then
           (qadd acc.1 (qmul sp (mkRat 2 25)), acc.2 + 1) else acc
         sub.2.keywords.foldl
           (fun acc2 kw => if hasSub (lowerChars kw) text then
             (qadd acc2.1 (qmul sp (mkRat 3 100)), acc2.2 + 1) else acc2) acc1) =
        (acc.1 + ((if matchB text sub.1 then (sub.2.priority.getD 5) * mkRat 2 25 else 0)
          + (sub.2.keywords.map (fun kw =>
              if matchB text kw then (sub.2.priority.getD 5) * mkRat 3 100 else 0)).sum),
         acc.2 + ((if matchB text sub.1 then 1 else 0)
          + (sub.2.keywords.map (fun kw => if matchB text kw then 1 else 0)).sum)) := by
      intro acc sub hmem
      have hspq := priorityOk_jsOrQ _ (hsp sub hmem)
      dsimp only
      rw [hspq]
      have hkw2 : ∀ (acc2 : ℚ × Nat), ∀ kw ∈ sub.2.keywords,
          (if hasSub (lowerChars kw) text then
            (qadd acc2.1 (qmul (sub.2.priority.getD 5) (mkRat 3 100)), acc2.2 + 1) else acc2) =
          (acc2.1 + (if matchB text kw then (sub.2.priority.getD 5) * mkRat 3 100 else 0),
           acc2.2 + (if matchB text kw then 1 else 0)) := by
        intro acc2 kw _
        by_cases hm : matchB text kw
        · rw [if_pos hm, if_pos, if_pos hm, qadd_eq, qmul_eq]
          exact hm
        · rw [if_neg hm, if_neg, if_neg hm, add_zero, add_zero]
          exact hm
      rw [foldl_shift _ _ _ _ hkw2]
      by_cases hm : matchB text sub.1
      · rw [if_pos, if_pos hm, if_pos hm, qadd_eq, qmul_eq]
        · rw [Prod.mk.injEq]
          constructor
          · dsimp only
            ring
          · dsimp only
            omega
        · simpa [matchB] using hm
      · rw [if_neg, if_neg hm, if_neg hm]
        · rw [Prod.mk.injEq]
          constructor
          · dsimp only
            ring
          · dsimp only
            omega
        · simpa [matchB] using hm
    unfold KeywordRelevanceFilter.kwStep specCatScore specCatCount
    rw [priorityOk_jsOrQ _ hp]
    dsimp only
    rw [foldl_shift _ _ _ _ hkw, foldl_shift _ _ _ _ hsub]
    by_cases hm : matchB text name
    · rw [if_pos, if_pos hm, if_pos hm, qmul_eq]
      · rw [Prod.mk.injEq]
        constructor
        · simp only [Option.getD_some]
        · simp only [Option.getD_some]
      · simpa [matchB] using hm
    · rw [if_neg, if_neg hm, if_neg hm]
      · rw [Prod.mk.injEq]
        constructor
        · simp only [Option.getD_some]
        · simp only [Option.getD_some]
      · simpa [matchB] using hm

/-- C4: for a well-formed hierarchical interest model (priorities in
[1,10] where supplied), the filter's keyword relevance equals the spec's
deterministic formula — `priority*0.10` per category-name substring hit,
`priority*0.05` per category keyword, `subcategoryPriority*0.08` per
subcategory name, `subcategoryPriority*0.03` per subcategory keyword,
summed over the lowercased title+description text and clamped at 1.0 —
and whenever the total match count is strictly below
`keywordMatchThreshold`, the resulting relevance is exactly 0. -/
theorem kwScan_object_eq (text : List Char) (entries : List (String × InterestData))
    (hwf' : ∀ e ∈ entries, InterestData.wf e.2 = true) :
    KeywordRelevanceFilter.kwScan text (.object entries) =
      ((entries.map (specCatScore text)).sum,
       (entries.map (specCatCount text)).sum) := by
  unfold KeywordRelevanceFilter.kwScan
  dsimp only
  rw [foldl_shift entries _ (specCatScore text) (specCatCount text) ?hstep]
  · simp
  · intro acc e he
    have hew := hwf' e he
    have h1 : priorityOk e.2.priority = true := by
      simp only [InterestData.wf, Bool.and_eq_true] at hew
      exact hew.1
    have h2 : ∀ sub ∈ e.2.subcategories.getD [], priorityOk sub.2.priority = true := by
      simp only [InterestData.wf, Bool.and_eq_true, List.all_eq_true] at hew
      exact fun sub hs => hew.2 sub hs
    rw [kwStep_eq _ e.1 e.2 h1 h2, qadd_eq]

theorem keywordRelevance_formula (cfg : Thresholds)
    (entries : List (String × InterestData)) (content : ContentItem)
    (hwf : UserInterests.wf (.object entries) = true) :
    KeywordRelevanceFilter.calculateKeywordRelevance cfg (.object entries) content =
      specKeywordRelevance cfg entries content ∧
    ((KeywordRelevanceFilter.kwScan (textOf content) (.object entries)).2 <
        cfg.keywordMatchThreshold →
      KeywordRelevanceFilter.calculateKeywordRelevance cfg (.object entries) content = 0) := by
  have hwf' : ∀ e ∈ entries, InterestData.wf e.2 = true := by
    simpa [UserInterests.wf, List.all_eq_true] using hwf
  have hscan := kwScan_object_eq (textOf content) entries hwf'
  refine ⟨?_, ?_⟩
  · unfold KeywordRelevanceFilter.calculateKeywordRelevance specKeywordRelevance
    rw [hscan]
    by_cases hc : cfg.keywordMatchThreshold ≤ (entries.map (specCatCount (textOf content))).sum
    · rw [if_pos hc, if_neg (not_lt.mpr hc), jsMin_eq]
    · rw [if_neg hc, if_pos (lt_of_not_le hc)]
  · intro h
    unfold KeywordRelevanceFilter.calculateKeywordRelevance
    rw [hscan] at h ⊢
    dsimp only at h ⊢
    rw [if_neg (not_le.mpr h)]

/-- C4 witness: the concrete interest model
`{Programming: {priority: 8, keywords: ["react"]}}` against the example
item evaluates through both formulas, and its single match (the keyword,
the category name being absent from the text) is below the default
threshold of 2, forcing relevance 0. -/
theorem keywordRelevance_formula_witness :
    KeywordRelevanceFilter.calculateKeywordRelevance defaultThresholds
      (.object [("Programming",
        { priority := some 8, keywords := some ["react"] })]) exItem =
      specKeywordRelevance defaultThresholds
        [("Programming", { priority := some 8, keywords := some ["react"] })] exItem ∧
    KeywordRelevanceFilter.calculateKeywordRelevance defaultThresholds
      (.object [("Programming",
        { priority := some 8, keywords := some ["react"] })]) exItem = 0 :=
  ⟨(keywordRelevance_formula defaultThresholds
      [("Programming", { priority := some 8, keywords := some ["react"] })] exItem
      (by decide)).1,
   (keywordRelevance_formula defaultThresholds
      [("Programming", { priority := some 8, keywords := some ["react"] })] exItem
      (by decide)).2 (by decide)⟩

/-! ## C2 — quick-analysis fallback under a failing client -/

theorem chunkListAux_flatten (n : Nat) :
    ∀ (fuel : Nat) (l : List α), l.length ≤ fuel →
      (chunkListAux n fuel l).flatten = l := by
  intro fuel
  induction fuel with
  | zero =>
    intro l hl
    rw [List.length_eq_zero.mp (Nat.le_zero.mp hl)]
    rfl
  | succ fuel ih =>
    intro l hl
    cases l with
    | nil => rfl
    | cons x xs =>
      simp only [chunkListAux, List.flatten_cons]
      rw [ih (xs.drop (n - 1))
        (by rw [List.length_drop]; simp only [List.length_cons] at hl; omega)]
      simp [List.take_append_drop]

theorem chunkList_flatten (n : Nat) (l : List α) : (chunkList n l).flatten = l :=
  chunkListAux_flatten n l.length l (le_refl _)

theorem quick_fold_fail (call : QuickAIAnalyzer.QuickCall)
    (costOf : List ContentItem → ℚ) (model : String)
    (hfail : ∀ b, ∃ e, call b = Except.error e) :
    ∀ (chunks : List (List ContentItem)) (acc : List ContentItem × ℚ),
      ∃ suffix,
        (chunks.foldl
          (fun acc batch =>
            match QuickAIAnalyzer.analyzeBatch call costOf model batch with
            | Except.ok res => (acc.1 ++ res.1, qadd acc.2 res.2)
            | Except.error e => (acc.1 ++ batch.map (QuickAIAnalyzer.fallbackItem e), acc.2))
          acc).1 = acc.1 ++ suffix ∧
        List.Forall₂ quickFallbackRel chunks.flatten suffix := by
  intro chunks
  induction chunks with
  | nil =>
    intro acc
    exact ⟨[], by simp, by simp [List.flatten_nil]⟩
  | cons b rest ih =>
    intro acc
    obtain ⟨e, he⟩ := hfail b
    have hab : QuickAIAnalyzer.analyzeBatch call costOf model b = Except.error e := by
      unfold QuickAIAnalyzer.analyzeBatch
      rw [he]
    obtain ⟨suffix, hsuf, hrel⟩ :=
      ih (acc.1 ++ b.map (QuickAIAnalyzer.fallbackItem e), acc.2)
    refine ⟨b.map (QuickAIAnalyzer.fallbackItem e) ++ suffix, ?_, ?_⟩
    · rw [List.foldl_cons, hab]
      dsimp only at hsuf ⊢
      rw [hsuf, List.append_assoc]
    · rw [List.flatten_cons]
      refine List.rel_append ?_ hrel
      rw [List.forall₂_map_right_iff]
      exact List.forall₂_same.mpr (fun x _ => ⟨rfl, rfl, rfl⟩)

theorem runStages_ok_stages (stages : List (String × AnalysisPipeline.StageFun))
    (h : ∀ s ∈ stages, ∀ its, ∃ out, s.2 its = Except.ok out) :
    ∀ batch, ∀ r ∈ (AnalysisPipeline.runStages stages batch).2.1, r.error = none := by
  induction stages with
  | nil => intro batch r hr; simp [AnalysisPipeline.runStages] at hr
  | cons s rest ih =>
    intro batch r hr
    rcases s with ⟨name, f⟩
    obtain ⟨out, hout⟩ := h (name, f) (List.mem_cons_self _ _) batch
    have hout' : f batch = Except.ok out := hout
    unfold AnalysisPipeline.runStages at hr
    rw [hout'] at hr
    dsimp only at hr
    by_cases hempty : out.1.isEmpty
    · rw [if_pos hempty] at hr
      simp only [List.mem_singleton] at hr
      subst hr
      rfl
    · rw [if_neg hempty] at hr
      simp only [List.mem_cons] at hr
      rcases hr with hr | hr
      · subst hr; rfl
      · exact ih (fun s hs => h s (List.mem_cons_of_mem _ hs)) out.1 r hr

/-- C2 (amended): if every External Scoring Client request throws, the
Quick Analysis stage returns exactly as many items as it received, each
marked `aiAnalyzed = false` and `fallback = true`, with `quickAiScore`
equal to the item's prior `combinedScore` when that is present and
nonzero and `0.5` otherwise (JavaScript `combinedScore || 0.5`); and the
five-stage pipeline still returns a `PipelineResult` in which no stage
record carries an error. -/
theorem quick_stage_fallback (call : QuickAIAnalyzer.QuickCall)
    (costOf : List ContentItem → ℚ) (model : String) (cfg : ProcessingConfig)
    (items : List ContentItem)
    (hfail : ∀ b, ∃ e, call b = Except.error e) :
    (QuickAIAnalyzer.process call costOf model cfg items).1.length = items.length ∧
    List.Forall₂ quickFallbackRel items
      (QuickAIAnalyzer.process call costOf model cfg items).1 ∧
    (∀ (t : KeywordTables) (thr : Thresholds) (sc : ScoringConfig) (ui : UserInterests)
        (fullCall : FullAIAnalyzer.FullCall) (fullCost : ContentItem → ℚ)
        (batch : List ContentItem),
      ∀ r ∈ (AnalysisPipeline.process thr
          (AnalysisPipeline.stagesOf t thr sc cfg ui call costOf fullCall fullCost model)
          batch).stageResults, r.error = none) := by
  have hmain : List.Forall₂ quickFallbackRel items
      (QuickAIAnalyzer.process call costOf model cfg items).1 := by
    unfold QuickAIAnalyzer.process
    obtain ⟨suffix, hsuf, hrel⟩ := quick_fold_fail call costOf model hfail
      (chunkList cfg.batchSize items) ([], 0)
    rw [hsuf, List.nil_append]
    rwa [chunkList_flatten] at hrel
  refine ⟨(hmain.length_eq).symm, hmain, ?_⟩
  intro t thr sc ui fullCall fullCost batch r hr
  refine runStages_ok_stages _ ?_ batch r hr
  intro s hs its
  simp only [AnalysisPipeline.stagesOf, List.mem_cons, List.not_mem_nil, or_false] at hs
  rcases hs with h | h | h | h | h <;> rw [h] <;> exact ⟨_, rfl⟩

/-- C2 witness: a single item with combined score 0.8 and an
always-throwing client comes back fallback-marked with its combined
score as `quickAiScore`. -/
theorem quick_stage_fallback_witness :
    (QuickAIAnalyzer.process exFailingQuickCall (fun _ => 0) "m" defaultProcessing
      [exScoredItem]).1.length = 1 ∧
    List.Forall₂ quickFallbackRel [exScoredItem]
      (QuickAIAnalyzer.process exFailingQuickCall (fun _ => 0) "m" defaultProcessing
        [exScoredItem]).1 :=
  ⟨(quick_stage_fallback exFailingQuickCall (fun _ => 0) "m" defaultProcessing
      [exScoredItem] (fun b => ⟨"API error", rfl⟩)).1,
   (quick_stage_fallback exFailingQuickCall (fun _ => 0) "m" defaultProcessing
      [exScoredItem] (fun b => ⟨"API error", rfl⟩)).2.1⟩

/-- C2 counterexample: the claim as stated says the fallback
`quickAiScore` is taken from the item's prior `combinedScore`; for an
item whose combined score is 0 the stage instead assigns 0.5 (JavaScript
`0` is falsy in `combinedScore || 0.5`). -/
theorem quick_stage_fallback_counterexample :
    (QuickAIAnalyzer.process exFailingQuickCall (fun _ => 0) "m" defaultProcessing
      [exZeroScoreItem]).1.map (fun c => c.quickAiScore) = [some (mkRat 1 2)] ∧
    ¬(mkRat 1 2 = 0) ∧ exZeroScoreItem.combinedScore = some 0 := by
  decide

/-! ## C5 — score fields in [0,1] -/

theorem jsOrQ_unit (x : Option ℚ) (d : ℚ) (hx : optScoreOk x)
    (hd0 : 0 ≤ d) (hd1 : d ≤ 1) : 0 ≤ jsOrQ x d ∧ jsOrQ x d ≤ 1 := by
  rcases x with _ | v
  · exact ⟨hd0, hd1⟩
  · by_cases hv : v = 0
    · simp [jsOrQ, hv]
      exact ⟨hd0, hd1⟩
    · simp only [jsOrQ, if_neg hv]
      exact hx v rfl

theorem priorityOk_getD_nonneg (p : Option ℚ) (hp : priorityOk p = true) :
    0 ≤ p.getD 5 := by
  rcases p with _ | q
  · decide
  · simp only [priorityOk, Bool.and_eq_true, decide_eq_true_eq] at hp
    simp only [Option.getD_some]
    linarith [hp.1]

theorem specCatScore_nonneg (text : List Char) (e : String × InterestData)
    (hwf : InterestData.wf e.2 = true) : 0 ≤ specCatScore text e := by
  simp only [InterestData.wf, Bool.and_eq_true, List.all_eq_true] at hwf
  have hp := priorityOk_getD_nonneg _ hwf.1
  unfold specCatScore
  have h1 : (0:ℚ) ≤ if matchB text e.1 then e.2.priority.getD 5 * mkRat 1 10 else 0 := by
    split
    · exact mul_nonneg hp (by decide)
    · exact le_refl 0
  refine add_nonneg (add_nonneg h1 ?_) ?_
  · refine List.sum_nonneg ?_
    intro x hx
    rcases List.mem_map.mp hx with ⟨kw, _, hkw⟩
    subst hkw
    split
    · exact mul_nonneg hp (by decide)
    · exact le_refl 0
  · refine List.sum_nonneg ?_
    intro x hx
    rcases List.mem_map.mp hx with ⟨sub, hsub, hval⟩
    subst hval
    have hsp := priorityOk_getD_nonneg _ (hwf.2 sub hsub)
    dsimp only
    refine add_nonneg ?_ ?_
    · split
      · exact mul_nonneg hsp (by decide)
      · exact le_refl 0
    · refine List.sum_nonneg ?_
      intro y hy
      rcases List.mem_map.mp hy with ⟨kw, _, hkw⟩
      subst hkw
      split
      · exact mul_nonneg hsp (by decide)
      · exact le_refl 0

theorem kwScan_array_eq (text : List Char) (names : List String) :
    KeywordRelevanceFilter.kwScan text (.array names) =
      KeywordRelevanceFilter.kwScan text
        (.object (names.map (fun n => (n, defaultEntryData)))) := by
  unfold KeywordRelevanceFilter.kwScan
  dsimp only
  rw [List.foldl_map]
  rfl

theorem wf_defaultEntries (names : List String) :
    ∀ e ∈ names.map (fun n => (n, defaultEntryData)), InterestData.wf e.2 = true := by
  intro e he
  rcases List.mem_map.mp he with ⟨n, _, hn⟩
  subst hn
  show InterestData.wf defaultEntryData = true
  decide

theorem keywordRelevance_bounds (cfg : Thresholds) (ui : UserInterests)
    (content : ContentItem) (hwf : UserInterests.wf ui = true) :
    0 ≤ KeywordRelevanceFilter.calculateKeywordRelevance cfg ui content ∧
    KeywordRelevanceFilter.calculateKeywordRelevance cfg ui content ≤ 1 := by
  have hsum : ∀ (entries : List (String × InterestData)),
      (∀ e ∈ entries, InterestData.wf e.2 = true) →
      0 ≤ (KeywordRelevanceFilter.kwScan (textOf content) (.object entries)).1 := by
    intro entries hwf'
    rw [kwScan_object_eq _ entries hwf']
    exact List.sum_nonneg (fun x hx => by
      rcases List.mem_map.mp hx with ⟨e, he, hee⟩
      exact hee ▸ specCatScore_nonneg _ e (hwf' e he))
  have hnn : 0 ≤ (KeywordRelevanceFilter.kwScan (textOf content) ui).1 := by
    cases ui with
    | array names =>
      rw [kwScan_array_eq]
      exact hsum _ (wf_defaultEntries names)
    | object entries =>
      refine hsum entries ?_
      simpa [UserInterests.wf, List.all_eq_true] using hwf
  unfold KeywordRelevanceFilter.calculateKeywordRelevance
  dsimp only
  constructor
  · split
    · rw [jsMin_eq]
      exact le_min hnn (by norm_num)
    · norm_num
  · split
    · rw [jsMin_eq]
      exact min_le_right _ _
    · norm_num

theorem mkRat_nat_nonneg (n : Nat) : (0:ℚ) ≤ mkRat (n : Int) 1 := by
  rw [Rat.mkRat_one]
  positivity

theorem qualityScore_bounds (t : KeywordTables) (content : ContentItem) :
    0 ≤ QualityScorer.calculateQualityScore defaultScoring t content ∧
    QualityScorer.calculateQualityScore defaultScoring t content ≤ 1 := by
  unfold QualityScorer.calculateQualityScore
  dsimp only
  rw [jsMin_eq]
  refine ⟨le_min ?_ (by norm_num), min_le_right _ _⟩
  rw [qadd_eq, qadd_eq, qadd_eq]
  refine add_nonneg (add_nonneg (add_nonneg ?_ ?_) ?_) ?_
  · rw [jsMin_eq]
    refine le_min ?_ (by decide)
    rw [qmul_eq]
    exact mul_nonneg (mkRat_nat_nonneg _) (by decide)
  · rw [jsMin_eq]
    refine le_min ?_ (by decide)
    rw [qmul_eq]
    exact mul_nonneg (mkRat_nat_nonneg _) (by decide)
  · rcases content.viewCount with _ | v
    · exact le_refl 0
    · dsimp only
      split_ifs <;> decide
  · split_ifs <;> decide

theorem jsOrQ_priority_nonneg (p : Option ℚ) (hp : priorityOk p = true) :
    0 ≤ jsOrQ p 5 := by
  rcases p with _ | q
  · decide
  · simp only [priorityOk, Bool.and_eq_true, decide_eq_true_eq] at hp
    simp only [jsOrQ]
    split
    · decide
    · linarith [hp.1]

theorem alignFold_bounds (text : List Char) :
    ∀ (pairs : List (String × ℚ)), (∀ x ∈ pairs, 0 ≤ x.2) →
    ∀ (acc : ℚ × ℚ), 0 ≤ acc.1 → acc.1 ≤ acc.2 →
      0 ≤ (pairs.foldl (fun (acc : ℚ × ℚ) x =>
        let tp := qadd acc.2 x.2
        if hasSub (lowerChars x.1) text then (qadd acc.1 x.2, tp) else (acc.1, tp)) acc).1 ∧
      (pairs.foldl (fun (acc : ℚ × ℚ) x =>
        let tp := qadd acc.2 x.2
        if hasSub (lowerChars x.1) text then (qadd acc.1 x.2, tp) else (acc.1, tp)) acc).1 ≤
      (pairs.foldl (fun (acc : ℚ × ℚ) x =>
        let tp := qadd acc.2 x.2
        if hasSub (lowerChars x.1) text then (qadd acc.1 x.2, tp) else (acc.1, tp)) acc).2 := by
  intro pairs
  induction pairs with
  | nil => intro _ acc h0 h1; exact ⟨h0, h1⟩
  | cons x rest ih =>
    intro hp acc h0 h1
    have hx := hp x (List.mem_cons_self _ _)
    rw [List.foldl_cons]
    dsimp only
    split
    · refine ih (fun y hy => hp y (List.mem_cons_of_mem _ hy)) _ ?_ ?_
      · dsimp only
        rw [qadd_eq]
        linarith
      · dsimp only
        rw [qadd_eq, qadd_eq]
        linarith
    · refine ih (fun y hy => hp y (List.mem_cons_of_mem _ hy)) _ ?_ ?_
      · dsimp only
        exact h0
      · dsimp only
        rw [qadd_eq]
        linarith

theorem interestAlignment_bounds (content : ContentItem) (ui : UserInterests)
    (hwf : UserInterests.wf ui = true) :
    0 ≤ QualityScorer.calculateInterestAlignment content ui ∧
    QualityScorer.calculateInterestAlignment content ui ≤ 1 := by
  have hpairs : ∀ x ∈ QualityScorer.alignmentPairs ui, 0 ≤ x.2 := by
    intro x hx
    cases ui with
    | array names =>
      rcases List.mem_map.mp hx with ⟨n, _, hn⟩
      subst hn
      show (0:ℚ) ≤ 5
      decide
    | object entries =>
      rcases List.mem_map.mp hx with ⟨e, he, hee⟩
      subst hee
      have hall : ∀ e ∈ entries, InterestData.wf e.2 = true := by
        simpa [UserInterests.wf, List.all_eq_true] using hwf
      have hew := hall e he
      simp only [InterestData.wf, Bool.and_eq_true] at hew
      exact jsOrQ_priority_nonneg _ hew.1
  unfold QualityScorer.calculateInterestAlignment
  split
  · exact ⟨by decide, by decide⟩
  · dsimp only
    have hb := alignFold_bounds (textOf content) (QualityScorer.alignmentPairs ui)
      hpairs (0, 0) (le_refl 0) (le_refl 0)
    split
    · rename_i ht
      rw [jsMin_eq, qdiv_eq]
      exact ⟨le_min (div_nonneg hb.1 (le_of_lt ht)) (by norm_num), min_le_right _ _⟩
    · exact ⟨le_refl 0, by norm_num⟩

theorem combinedScore_bounds (t : KeywordTables) (ui : UserInterests)
    (content : ContentItem) (kr : ℚ) (hwf : UserInterests.wf ui = true)
    (hkr : content.keywordRelevance = some kr) (h0 : 0 ≤ kr) (h1 : kr ≤ 1) :
    ∀ q, (QualityScorer.enrichWithQualityScores defaultScoring t ui content).combinedScore =
      some q → 0 ≤ q ∧ q ≤ 1 := by
  intro q hq
  unfold QualityScorer.enrichWithQualityScores at hq
  dsimp only at hq
  rw [Option.some_inj] at hq
  have hqs := qualityScore_bounds t content
  have hia := interestAlignment_bounds content ui hwf
  rw [hkr] at hq
  simp only [Option.getD_some] at hq
  rw [qadd_eq, qadd_eq, qmul_eq, qmul_eq, qmul_eq] at hq
  have hw1 : (defaultScoring.qualityWeight : ℚ) = 2/5 := by
    show (mkRat 2 5 : ℚ) = 2/5
    rw [Rat.mkRat_eq_divInt, Rat.divInt_eq_div]
    norm_num
  have hw2 : (defaultScoring.relevanceWeight : ℚ) = 2/5 := by
    show (mkRat 2 5 : ℚ) = 2/5
    rw [Rat.mkRat_eq_divInt, Rat.divInt_eq_div]
    norm_num
  have hw3 : (defaultScoring.alignmentWeight : ℚ) = 1/5 := by
    show (mkRat 1 5 : ℚ) = 1/5
    rw [Rat.mkRat_eq_divInt, Rat.divInt_eq_div]
    norm_num
  rw [hw1, hw2, hw3] at hq
  subst hq
  constructor
  · have := hqs.1
    have := hia.1
    nlinarith [hqs.1, hia.1]
  · nlinarith [hqs.2, hia.2]

theorem mem_zipWith_exists {f : α → β → γ} :
    ∀ {l1 : List α} {l2 : List β} {c : γ}, c ∈ List.zipWith f l1 l2 →
      ∃ a b, a ∈ l1 ∧ b ∈ l2 ∧ c = f a b := by
  intro l1
  induction l1 with
  | nil => intro l2 c hc; simp at hc
  | cons x t ih =>
    intro l2 c hc
    cases l2 with
    | nil => simp at hc
    | cons y t2 =>
      simp only [List.zipWith_cons_cons, List.mem_cons] at hc
      rcases hc with rfl | hc
      · exact ⟨x, y, List.mem_cons_self _ _, List.mem_cons_self _ _, rfl⟩
      · obtain ⟨a, b, ha, hb, hco⟩ := ih hc
        exact ⟨a, b, List.mem_cons_of_mem _ ha, List.mem_cons_of_mem _ hb, hco⟩

theorem quick_enriched_bounds (call : QuickAIAnalyzer.QuickCall)
    (costOf : List ContentItem → ℚ) (model : String) (batch : List ContentItem)
    (out : List ContentItem) (cost : ℚ)
    (hscores : ∀ b s, call b = Except.ok s → ∀ x ∈ s, 0 ≤ x ∧ x ≤ 1)
    (hb : ∀ c ∈ batch, optScoreOk c.combinedScore)
    (hok : QuickAIAnalyzer.analyzeBatch call costOf model batch = Except.ok (out, cost)) :
    ∀ c ∈ out, optScoreOk c.quickAiScore := by
  unfold QuickAIAnalyzer.analyzeBatch at hok
  cases hc : call batch with
  | error e =>
    rw [hc] at hok
    exact absurd hok (by simp)
  | ok scores =>
    rw [hc] at hok
    dsimp only at hok
    by_cases hlen : scores.length ≠ batch.length
    · rw [if_pos hlen] at hok
      exact absurd hok (by simp)
    · rw [if_neg hlen] at hok
      simp only [Except.ok.injEq, Prod.mk.injEq] at hok
      intro c hcmem
      rw [← hok.1] at hcmem
      obtain ⟨a, sc, ha, hs, rfl⟩ := mem_zipWith_exists hcmem
      intro q hq
      dsimp only at hq
      rw [Option.some_inj] at hq
      subst hq
      have hsc := hscores batch scores hc sc hs
      refine jsOrQ_unit (some sc) _ ?_ ?_ ?_ |>.imp id id
      · intro v hv
        rw [Option.some_inj] at hv
        exact hv ▸ hsc
      · exact (jsOrQ_unit a.combinedScore _ (hb a ha) (by decide) (by decide)).1
      · exact (jsOrQ_unit a.combinedScore _ (hb a ha) (by decide) (by decide)).2

theorem quick_fallback_bounds (e : String) (c : ContentItem)
    (hb : optScoreOk c.combinedScore) :
    optScoreOk ((QuickAIAnalyzer.fallbackItem e c).quickAiScore) := by
  intro q hq
  unfold QuickAIAnalyzer.fallbackItem at hq
  dsimp only at hq
  rw [Option.some_inj] at hq
  subst hq
  exact jsOrQ_unit c.combinedScore _ hb (by decide) (by decide)

theorem full_analyzed_bounds (call : FullAIAnalyzer.FullCall)
    (costOf : ContentItem → ℚ) (model : String) (content : ContentItem)
    (r : ContentItem) (cost : ℚ)
    (hresp : ∀ c resp, call c = Except.ok resp → optScoreOk resp.relevanceScore)
    (hq : optScoreOk content.quickAiScore)
    (hok : FullAIAnalyzer.analyzeContent call costOf model content = Except.ok (r, cost)) :
    optScoreOk r.finalRelevanceScore := by
  unfold FullAIAnalyzer.analyzeContent at hok
  cases hc : call content with
  | error e =>
    rw [hc] at hok
    exact absurd hok (by simp)
  | ok resp =>
    rw [hc] at hok
    dsimp only at hok
    simp only [Except.ok.injEq, Prod.mk.injEq] at hok
    intro q hqe
    rw [← hok.1] at hqe
    dsimp only [FullAIAnalyzer.validateAnalysis] at hqe
    rw [Option.some_inj] at hqe
    subst hqe
    have hinner := jsOrQ_unit resp.relevanceScore (mkRat 1 2)
      (hresp content resp hc) (by decide) (by decide)
    have houter := jsOrQ_unit content.quickAiScore (mkRat 1 2) hq (by decide) (by decide)
    refine jsOrQ_unit _ _ ?_ houter.1 houter.2
    intro v hv
    rw [Option.some_inj] at hv
    exact hv ▸ hinner

theorem full_fallback_bounds (e : String) (c : ContentItem)
    (hq : optScoreOk c.quickAiScore) (hb : optScoreOk c.combinedScore) :
    optScoreOk ((FullAIAnalyzer.itemFallback e c).finalRelevanceScore) := by
  intro q hqe
  unfold FullAIAnalyzer.itemFallback at hqe
  dsimp only at hqe
  rw [Option.some_inj] at hqe
  subst hqe
  have hinner := jsOrQ_unit c.combinedScore (mkRat 1 2) hb (by decide) (by decide)
  exact jsOrQ_unit c.quickAiScore _ hq hinner.1 hinner.2

theorem full_passthrough_bounds (c : ContentItem)
    (hq : optScoreOk c.quickAiScore) (hb : optScoreOk c.combinedScore) :
    optScoreOk ((FullAIAnalyzer.passThrough c).finalRelevanceScore) := by
  intro q hqe
  unfold FullAIAnalyzer.passThrough at hqe
  dsimp only at hqe
  rw [Option.some_inj] at hqe
  subst hqe
  have hinner := jsOrQ_unit c.combinedScore (mkRat 1 2) hb (by decide) (by decide)
  exact jsOrQ_unit c.quickAiScore _ hq hinner.1 hinner.2

/-- C5 (amended): the locally computed score fields are always clamped —
`keywordRelevance`, `qualityScore` and `interestAlignment` lie in [0,1]
for any (well-formed) interest model, and `combinedScore` lies in [0,1]
whenever the item's `keywordRelevance` does; but the scores derived from
external responses are copied without clamping, so `quickAiScore` and
`finalRelevanceScore` lie in [0,1] only under the hypothesis that every
score the external client returns does (the counterexample shows an
out-of-range response score flowing through unchanged). -/
theorem score_fields_unit_interval :
    (∀ (cfg : Thresholds) (ui : UserInterests) (content : ContentItem),
      UserInterests.wf ui = true →
      0 ≤ KeywordRelevanceFilter.calculateKeywordRelevance cfg ui content ∧
      KeywordRelevanceFilter.calculateKeywordRelevance cfg ui content ≤ 1) ∧
    (∀ (t : KeywordTables) (content : ContentItem),
      0 ≤ QualityScorer.calculateQualityScore defaultScoring t content ∧
      QualityScorer.calculateQualityScore defaultScoring t content ≤ 1) ∧
    (∀ (content : ContentItem) (ui : UserInterests), UserInterests.wf ui = true →
      0 ≤ QualityScorer.calculateInterestAlignment content ui ∧
      QualityScorer.calculateInterestAlignment content ui ≤ 1) ∧
    (∀ (t : KeywordTables) (ui : UserInterests) (content : ContentItem) (kr : ℚ),
      UserInterests.wf ui = true → content.keywordRelevance = some kr →
      0 ≤ kr → kr ≤ 1 →
      ∀ q, (QualityScorer.enrichWithQualityScores defaultScoring t ui content).combinedScore =
        some q → 0 ≤ q ∧ q ≤ 1) ∧
    (∀ (call : QuickAIAnalyzer.QuickCall) (costOf : List ContentItem → ℚ)
        (model : String) (batch out : List ContentItem) (cost : ℚ),
      (∀ b s, call b = Except.ok s → ∀ x ∈ s, 0 ≤ x ∧ x ≤ 1) →
      (∀ c ∈ batch, optScoreOk c.combinedScore) →
      QuickAIAnalyzer.analyzeBatch call costOf model batch = Except.ok (out, cost) →
      ∀ c ∈ out, optScoreOk c.quickAiScore) ∧
    (∀ (e : String) (c : ContentItem), optScoreOk c.combinedScore →
      optScoreOk ((QuickAIAnalyzer.fallbackItem e c).quickAiScore)) ∧
    (∀ (call : FullAIAnalyzer.FullCall) (costOf : ContentItem → ℚ)
        (model : String) (content r : ContentItem) (cost : ℚ),
      (∀ c resp, call c = Except.ok resp → optScoreOk resp.relevanceScore) →
      optScoreOk content.quickAiScore →
      FullAIAnalyzer.analyzeContent call costOf model content = Except.ok (r, cost) →
      optScoreOk r.finalRelevanceScore) ∧
    (∀ (e : String) (c : ContentItem), optScoreOk c.quickAiScore →
      optScoreOk c.combinedScore →
      optScoreOk ((FullAIAnalyzer.itemFallback e c).finalRelevanceScore)) ∧
    (∀ (c : ContentItem), optScoreOk c.quickAiScore → optScoreOk c.combinedScore →
      optScoreOk ((FullAIAnalyzer.passThrough c).finalRelevanceScore)) :=
  ⟨keywordRelevance_bounds, qualityScore_bounds, interestAlignment_bounds,
   fun t ui content kr hwf hkr h0 h1 =>
     combinedScore_bounds t ui content kr hwf hkr h0 h1,
   fun call costOf model batch out cost hs hb hok =>
     quick_enriched_bounds call costOf model batch out cost hs hb hok,
   quick_fallback_bounds,
   fun call costOf model content r cost hresp hq hok =>
     full_analyzed_bounds call costOf model content r cost hresp hq hok,
   full_fallback_bounds, full_passthrough_bounds⟩

/-- C5 witness: the bounds evaluated at the example item, interest model
and an always-failing batch fallback. -/
theorem score_fields_unit_interval_witness :
    (0 ≤ KeywordRelevanceFilter.calculateKeywordRelevance defaultThresholds exInterests exItem ∧
     KeywordRelevanceFilter.calculateKeywordRelevance defaultThresholds exInterests exItem ≤ 1) ∧
    (0 ≤ QualityScorer.calculateQualityScore defaultScoring exTables exItem ∧
     QualityScorer.calculateQualityScore defaultScoring exTables exItem ≤ 1) ∧
    optScoreOk ((QuickAIAnalyzer.fallbackItem "API error" exScoredItem).quickAiScore) :=
  ⟨score_fields_unit_interval.1 defaultThresholds exInterests exItem (by decide),
   score_fields_unit_interval.2.1 exTables exItem,
   score_fields_unit_interval.2.2.2.2.2.1 "API error" exScoredItem
     (fun q hq => by
       rw [show exScoredItem.combinedScore = some (mkRat 4 5) from rfl,
         Option.some_inj] at hq
       exact hq ▸ ⟨by decide, by decide⟩)⟩

/-- C5 counterexample: an external quick-scoring response of 1.5 is
copied into `quickAiScore` unclamped, so the claim that every score
field of every stage output lies in [0,1] — including scores derived
from external responses — is false. -/
theorem score_fields_unit_interval_counterexample :
    (QuickAIAnalyzer.process exHighQuickCall (fun _ => 0) "m" defaultProcessing
      [exScoredItem]).1.map (fun c => c.quickAiScore) = [some (mkRat 3 2)] ∧
    ¬(mkRat 3 2 ≤ 1) := by
  decide

/-! ## C1 — orchestrator halt and zero-item semantics -/

theorem runStages_cons (name : String) (f : AnalysisPipeline.StageFun)
    (rest : List (String × AnalysisPipeline.StageFun)) (content : List ContentItem) :
    AnalysisPipeline.runStages ((name, f) :: rest) content =
      (match f content with
       | Except.error msg =>
         (content, [{ name := name, error := some msg, inputCount := content.length,
                      outputCount := 0, cost := 0 }], 0)
       | Except.ok out =>
         if out.1.isEmpty then
           (out.1, [{ name := name, error := none, inputCount := content.length,
                      outputCount := out.1.length, cost := out.2 }], out.2)
         else
           ((AnalysisPipeline.runStages rest out.1).1,
            { name := name, error := none, inputCount := content.length,
              outputCount := out.1.length, cost := out.2 } ::
              (AnalysisPipeline.runStages rest out.1).2.1,
            qadd out.2 (AnalysisPipeline.runStages rest out.1).2.2)) := rfl

theorem runStages_append_clean :
    ∀ (pre : List (String × AnalysisPipeline.StageFun)) (batch c : List ContentItem)
      (recs : List AnalysisPipeline.StageRecord) (cost : ℚ),
      AnalysisPipeline.runStages pre batch = (c, recs, cost) →
      recs.length = pre.length →
      (∀ r ∈ recs, r.error = none) →
      c ≠ [] →
      ∀ rest, AnalysisPipeline.runStages (pre ++ rest) batch =
        ((AnalysisPipeline.runStages rest c).1,
         recs ++ (AnalysisPipeline.runStages rest c).2.1,
         cost + (AnalysisPipeline.runStages rest c).2.2) := by
  intro pre
  induction pre with
  | nil =>
    intro batch c recs cost hrun hlen hclean hc rest
    unfold AnalysisPipeline.runStages at hrun
    simp only [Prod.mk.injEq] at hrun
    obtain ⟨rfl, rfl, rfl⟩ := hrun
    simp
  | cons s pre' ih =>
    intro batch c recs cost hrun hlen hclean hc rest
    rcases s with ⟨name, f⟩
    rw [runStages_cons] at hrun
    cases hf : f batch with
    | error msg =>
      rw [hf] at hrun
      dsimp only at hrun
      simp only [Prod.mk.injEq] at hrun
      obtain ⟨-, hrecs, -⟩ := hrun
      exact absurd (hclean _ (hrecs ▸ List.mem_singleton_self _)) (by simp)
    | ok out =>
      rw [hf] at hrun
      dsimp only at hrun
      by_cases hempty : out.1.isEmpty
      · rw [if_pos hempty] at hrun
        simp only [Prod.mk.injEq] at hrun
        obtain ⟨hc1, -, -⟩ := hrun
        rw [← hc1] at hc
        exact absurd (List.isEmpty_iff.mp hempty) hc
      · rw [if_neg hempty] at hrun
        simp only [Prod.mk.injEq] at hrun
        obtain ⟨hc1, hrecs, hcost⟩ := hrun
        have hlen' : (AnalysisPipeline.runStages pre' out.1).2.1.length = pre'.length := by
          rw [← hrecs] at hlen
          simpa using hlen
        have hclean' : ∀ r ∈ (AnalysisPipeline.runStages pre' out.1).2.1, r.error = none := by
          intro r hr
          exact hclean r (by rw [← hrecs]; exact List.mem_cons_of_mem _ hr)
        have hcomp := ih out.1 c (AnalysisPipeline.runStages pre' out.1).2.1
          (AnalysisPipeline.runStages pre' out.1).2.2
          (by rw [← hc1]) hlen' hclean' hc rest
        rw [List.cons_append, runStages_cons, hf]
        dsimp only
        rw [if_neg hempty, hcomp]
        simp only [Prod.mk.injEq]
        refine ⟨trivial, ?_, ?_⟩
        · rw [← hrecs, List.cons_append]
        · rw [← hcost, qadd_eq, qadd_eq, add_assoc]

/-- C1: if every stage before it completed cleanly with surviving
content, a stage that throws makes the orchestrator record that stage's
error message (with `outputCount` 0 and no cost) as the final stage
record, run no further stages, and still return a `PipelineResult` whose
ranked items are the survivors of the completed stages after the final
cutoff; whereas a stage returning zero items stops further stages with a
normal (error-free) record and the pipeline proceeds to finalization
with the empty set. -/
theorem pipeline_halt_semantics (cfg : Thresholds)
    (pre post : List (String × AnalysisPipeline.StageFun)) (name : String)
    (f : AnalysisPipeline.StageFun) (batch c : List ContentItem)
    (recs : List AnalysisPipeline.StageRecord) (cost : ℚ)
    (hrun : AnalysisPipeline.runStages pre batch = (c, recs, cost))
    (hlen : recs.length = pre.length)
    (hclean : ∀ r ∈ recs, r.error = none)
    (hc : c ≠ []) :
    (∀ msg, f c = Except.error msg →
      (AnalysisPipeline.process cfg (pre ++ (name, f) :: post) batch).analyzedContent =
        AnalysisPipeline.applyFinalFilter cfg c ∧
      (AnalysisPipeline.process cfg (pre ++ (name, f) :: post) batch).stageResults =
        recs ++ [{ name := name, error := some msg, inputCount := c.length,
                   outputCount := 0, cost := 0 }] ∧
      (AnalysisPipeline.process cfg (pre ++ (name, f) :: post) batch).totalCost = cost) ∧
    (∀ zc, f c = Except.ok ([], zc) →
      (AnalysisPipeline.process cfg (pre ++ (name, f) :: post) batch).analyzedContent = [] ∧
      (AnalysisPipeline.process cfg (pre ++ (name, f) :: post) batch).stageResults =
        recs ++ [{ name := name, error := none, inputCount := c.length,
                   outputCount := 0, cost := zc }] ∧
      (AnalysisPipeline.process cfg (pre ++ (name, f) :: post) batch).totalCost = cost + zc) := by
  have hcomp := runStages_append_clean pre batch c recs cost hrun hlen hclean hc
    ((name, f) :: post)
  constructor
  · intro msg hmsg
    have htail : AnalysisPipeline.runStages ((name, f) :: post) c =
        (c, [{ name := name, error := some msg, inputCount := c.length,
               outputCount := 0, cost := 0 }], 0) := by
      rw [runStages_cons, hmsg]
    rw [htail] at hcomp
    unfold AnalysisPipeline.process
    rw [hcomp]
    exact ⟨rfl, rfl, add_zero cost⟩
  · intro zc hz
    have htail : AnalysisPipeline.runStages ((name, f) :: post) c =
        ([], [{ name := name, error := none, inputCount := c.length,
                outputCount := 0, cost := zc }], zc) := by
      rw [runStages_cons, hz]
      rfl
    rw [htail] at hcomp
    unfold AnalysisPipeline.process
    rw [hcomp]
    exact ⟨rfl, rfl, rfl⟩

/-- C1 witness: a clean first stage, a throwing second stage and a third
stage that never runs; the failing stage's record carries the error and
the result holds exactly the survivors of the first stage, filtered and
ranked. -/
theorem pipeline_halt_semantics_witness :
    (AnalysisPipeline.process defaultThresholds
      [("A", exOkStage), ("Boom", exThrowStage), ("B", exOkStage)]
      [exItem]).analyzedContent =
      AnalysisPipeline.applyFinalFilter defaultThresholds [exItem] ∧
    (AnalysisPipeline.process defaultThresholds
      [("A", exOkStage), ("Boom", exThrowStage), ("B", exOkStage)]
      [exItem]).stageResults =
      [{ name := "A", error := none, inputCount := 1, outputCount := 1, cost := 0 }] ++
      [{ name := "Boom", error := some "stage blew up", inputCount := 1,
         outputCount := 0, cost := 0 }] ∧
    (AnalysisPipeline.process defaultThresholds
      [("A", exOkStage), ("Boom", exThrowStage), ("B", exOkStage)]
      [exItem]).totalCost = 0 :=
  (pipeline_halt_semantics defaultThresholds [("A", exOkStage)] [("B", exOkStage)]
    "Boom" exThrowStage [exItem] [exItem]
    [{ name := "A", error := none, inputCount := 1, outputCount := 1, cost := 0 }] 0
    (by decide) (by decide) (by decide) (by decide)).1 "stage blew up" rfl

/-- C7 witness: the factorization and the never-rejected case evaluated
at the example item, whose duration is absent. -/
theorem basicFilter_duration_rule_witness :
    BasicContentFilter.passesBasicFilter exTables defaultThresholds exItem =
      (BasicContentFilter.passesExceptDuration exTables defaultThresholds exItem &&
        !(BasicContentFilter.durationRejects defaultThresholds exItem)) ∧
    BasicContentFilter.durationRejects defaultThresholds exItem = false :=
  ⟨(basicFilter_duration_rule exTables defaultThresholds exItem).1,
   (basicFilter_duration_rule exTables defaultThresholds exItem).2.2.2 rfl⟩
